import Mathlib

/-!
Verification development for the ddtp-translate repository.

The definitions below are shallow embeddings of the Python source:

* `src/ddtp_translate/ddtss_client.py` — the DDTSS HTTP client
  (`DDTSSClient._check_error`, `DDTSSClient.submit_translation`,
  `DDTSSClient.get_stats`).
* `src/ddtp_translate/main.py` — the translation queue
  (`_load_queue`, `_on_add_to_queue`, `_batch_send_worker`,
  `_on_export_po_response`, `_parse_imported_po`).

Python strings are modelled as `String` or `List Char`; network traffic is
modelled by an oracle function from requests to responses; exceptions are
modelled by `Option`/sum-like result types.
-/

namespace DdtpTranslate

/-- Decides whether `pat` is a prefix of `l`; models Python `str.startswith`. -/
def isPre : List Char → List Char → Bool
  | [], _ => true
  | _ :: _, [] => false
  | p :: ps, c :: cs => p == c && isPre ps cs

/-- Decides whether `pat` occurs as a contiguous substring of `hay`; models
the Python `pat in hay` test on strings. -/
def containsSub : List Char → List Char → Bool
  | [], pat => pat.isEmpty
  | c :: t, pat => isPre pat (c :: t) || containsSub t pat

/-- Substring test on `String`; models Python `pat in body`. -/
def strContains (body pat : String) : Bool :=
  containsSub body.toList pat.toList

/-- Lower-cases every character; models Python `str.lower` on the ASCII
subset that the client compares against. -/
def toLowerList (l : List Char) : List Char :=
  l.map Char.toLower

/-- Removes leading and trailing whitespace; models Python `str.strip()`. -/
def pyStrip (l : List Char) : List Char :=
  ((l.dropWhile Char.isWhitespace).reverse.dropWhile Char.isWhitespace).reverse

/-- Removes all leading and trailing double-quote characters; models the
Python call `str.strip(chr(34))`. -/
def stripQuotes (l : List Char) : List Char :=
  ((l.dropWhile (fun c => c == '"')).reverse.dropWhile (fun c => c == '"')).reverse

/-- Replaces every occurrence of the single character `c` by the string `r`;
models a Python `str.replace` call whose pattern is one character long. -/
def replaceChar (c : Char) (r : List Char) : List Char → List Char
  | [] => []
  | x :: xs => if x == c then r ++ replaceChar c r xs else x :: replaceChar c r xs

/-- Replaces every occurrence of the two-character pattern `p1 p2` by `r`,
scanning left to right without overlap; models a Python `str.replace` call
whose pattern is two characters long. -/
def replace2 (p1 p2 : Char) (r : List Char) : List Char → List Char
  | [] => []
  | [x] => [x]
  | x :: y :: rest =>
    if x == p1 && y == p2 then r ++ replace2 p1 p2 r rest
    else x :: replace2 p1 p2 r (y :: rest)

/-- Splits `s` at the leftmost occurrence of `pat`, returning the part before
and the part after the occurrence; `none` when `pat` does not occur.  This is
the semantics of a leftmost regex literal match. -/
def splitFirst : List Char → List Char → Option (List Char × List Char)
  | [], pat => if pat.isEmpty then some ([], []) else none
  | c :: rest, pat =>
    if isPre pat (c :: rest) then some ([], (c :: rest).drop pat.length)
    else
      match splitFirst rest pat with
      | some (b, a) => some (c :: b, a)
      | none => none

/-- Tail of `splitOnChar`: accumulates the current field in reverse. -/
def splitOnCharGo (sep : Char) : List Char → List Char → List (List Char)
  | acc, [] => [acc.reverse]
  | acc, c :: rest =>
    if c == sep then acc.reverse :: splitOnCharGo sep [] rest
    else splitOnCharGo sep (c :: acc) rest

/-- Splits a character list on a separator character; models Python
`str.split(sep)` (every occurrence separates, empty fields kept). -/
def splitOnChar (sep : Char) (l : List Char) : List (List Char) :=
  splitOnCharGo sep [] l

/-- Splits a file into lines; models Python `readlines()` followed by
`rstrip(chr(10))` on each line: the terminating newline of the last line
produces no extra empty line. -/
def readLines (file : List Char) : List (List Char) :=
  let ls := splitOnChar '\n' file
  if ls.getLast? = some [] then ls.dropLast else ls

/-- Joins lines with newline separators; models Python
`chr(10).join(lines)`. -/
def intercalateNl : List (List Char) → List Char
  | [] => []
  | [l] => l
  | l :: l2 :: rest => l ++ '\n' :: intercalateNl (l2 :: rest)

/-- Decimal digit character for a value below ten. -/
def digitChar (n : Nat) : Char := Char.ofNat (48 + n)

/-- Fuel-indexed helper for `natToChars`. -/
def natToCharsGo : Nat → Nat → List Char → List Char
  | 0, _, acc => acc
  | fuel + 1, n, acc =>
    if n < 10 then digitChar n :: acc
    else natToCharsGo fuel (n / 10) (digitChar (n % 10) :: acc)

/-- Decimal representation of a natural number; models Python `str(n)` for
nonnegative `n`. -/
def natToChars (n : Nat) : List Char := natToCharsGo (n + 1) n []

/-- Numeric value of a digit string; models Python `int(s)` on a string of
decimal digits. -/
def natOfDigits (l : List Char) : Nat :=
  l.foldl (fun a c => 10 * a + (c.toNat - 48)) 0

/-- Fuel-indexed helper for `stripTags`; the fuel only serves termination and
is always instantiated with the length of the list, which strictly bounds the
number of steps. -/
def stripTagsGo : Nat → List Char → List Char
  | 0, l => l
  | _ + 1, [] => []
  | fuel + 1, c :: rest =>
    if c == '<' then
      match splitFirst rest ['>'] with
      | some (inner, after) =>
        if inner.isEmpty then c :: stripTagsGo fuel rest
        else stripTagsGo fuel after
      | none => c :: stripTagsGo fuel rest
    else c :: stripTagsGo fuel rest

/-- Removes HTML tags: deletes each leftmost occurrence of a pattern
`lt (not-gt)+ gt`; models the Python call
`re.sub(r"<[^>]+>", "", msg)`. -/
def stripTags (l : List Char) : List Char := stripTagsGo l.length l

/-- Finds the contents of the first h1 element: the text between the first
`<h1>` and the first `</h1>` that follows it; models
`re.search(r"<h1>(.*?)</h1>", body, re.DOTALL)`. -/
def searchH1 (body : List Char) : Option (List Char) :=
  match splitFirst body "<h1>".toList with
  | some (_, rest) =>
    match splitFirst rest "</h1>".toList with
    | some (mid, _) => some mid
    | none => none
  | none => none

/-! ## Error classifier (`DDTSSClient._check_error`) -/

/-- Typed error kinds raised by the client.  `serverError` models the base
class `DDTSSError`, which the specification calls the generic/server error. -/
inductive DDTSSErrorKind
  | authError
  | lockedError
  | notFoundError
  | validationError
  | serverError
deriving DecidableEq

/-- The ordered error-phrase table of `DDTSSClient._check_error`, in the
insertion order of the Python dict (which iterates in insertion order). -/
def error_patterns : List (String × DDTSSErrorKind) :=
  [("You must be logged in", .authError),
   ("Invalid username/password", .authError),
   ("Account not active yet", .authError),
   ("locked, sorry", .lockedError),
   ("gone, sorry", .notFoundError),
   ("Couldn\x27t fetch", .notFoundError),
   ("didn\x27t contain package name", .notFoundError),
   ("Encoding error", .serverError),
   ("not complete, still <trans>", .validationError),
   ("line longer than 80 characters", .validationError)]

/-- Builds the human-readable message attached to a classifier error: the
stripped contents of the first h1 element when present, else the matched
phrase itself; in both cases markup is removed and whitespace trimmed. -/
def extract_error_message (pattern body : String) : String :=
  let msg : List Char :=
    match searchH1 body.toList with
    | some inner => pyStrip inner
    | none => pattern.toList
  ⟨pyStrip (stripTags msg)⟩

/-- Models `DDTSSClient._check_error`: scans the body against the phrase
table top to bottom, and on the first match returns the raised error kind
together with its message (`some` models raising, `none` models a normal
return). -/
def check_error_full (body : String) : Option (DDTSSErrorKind × String) :=
  match error_patterns.find? (fun r => strContains body r.1) with
  | some r => some (r.2, extract_error_message r.1 body)
  | none => none

/-- Kind-level view of `check_error_full`. -/
def check_error (body : String) : Option DDTSSErrorKind :=
  (check_error_full body).map (fun e => e.1)

/-- The error-phrase table exactly as the specification and claim C2 state
it, written independently of `error_patterns` for comparison. -/
def claimTable : List (String × DDTSSErrorKind) :=
  [("You must be logged in", .authError),
   ("Invalid username/password", .authError),
   ("Account not active yet", .authError),
   ("locked, sorry", .lockedError),
   ("gone, sorry", .notFoundError),
   ("Couldn\x27t fetch", .notFoundError),
   ("didn\x27t contain package name", .notFoundError),
   ("Encoding error", .serverError),
   ("not complete, still <trans>", .validationError),
   ("line longer than 80 characters", .validationError)]

/-- Classifier as the claim describes it: first matching rule of
`claimTable` wins. -/
def claimClassify (body : String) : Option DDTSSErrorKind :=
  (claimTable.find? (fun r => strContains body r.1)).map (fun r => r.2)

/-! ## URLs and requests (`DDTSSClient`) -/

/-- UTF-8 encoding of one character, as a list of byte values. -/
def utf8Bytes (c : Char) : List Nat :=
  let n := c.toNat
  if n < 128 then [n]
  else if n < 2048 then [192 + n / 64, 128 + n % 64]
  else if n < 65536 then [224 + n / 4096, 128 + (n / 64) % 64, 128 + n % 64]
  else [240 + n / 262144, 128 + (n / 4096) % 64, 128 + (n / 64) % 64, 128 + n % 64]

/-- Uppercase hexadecimal digit character. -/
def hexDigitChar (n : Nat) : Char :=
  if n < 10 then Char.ofNat (48 + n) else Char.ofNat (55 + n)

/-- Percent-encoding of one byte following `urllib.parse.quote` with the
default safe set: unreserved characters and the slash pass through. -/
def quoteByte (b : Nat) : List Char :=
  if b = 45 ∨ b = 46 ∨ b = 47 ∨ b = 95 ∨ b = 126 ∨ (48 ≤ b ∧ b ≤ 57) ∨
      (65 ≤ b ∧ b ≤ 90) ∨ (97 ≤ b ∧ b ≤ 122) then
    [Char.ofNat b]
  else ['%', hexDigitChar (b / 16), hexDigitChar (b % 16)]

/-- Models `urllib.parse.quote`: percent-encodes the UTF-8 bytes of `s`. -/
def quote (s : String) : String :=
  ⟨(((s.toList.map utf8Bytes).flatten).map quoteByte).flatten⟩

/-- Base URL of the DDTSS web interface. -/
def DDTSS_BASE : String := "https://ddtp.debian.org/ddtss/index.cgi"

/-- URL of the fetch endpoint for a specific package. -/
def fetch_url (lang pkg : String) : String :=
  DDTSS_BASE ++ "/" ++ lang ++ "/fetch?package=" ++ quote pkg

/-- URL of the translate page of a package. -/
def translate_url (lang pkg : String) : String :=
  DDTSS_BASE ++ "/" ++ lang ++ "/translate/" ++ quote pkg

/-- HTTP method of a modelled request. -/
inductive Meth
  | get
  | post
deriving DecidableEq

/-- An HTTP response: status code and decoded body. -/
structure Resp where
  status : Nat
  body : String
deriving DecidableEq

/-- An HTTP request as issued by `DDTSSClient._request`: method, URL and the
form fields of a POST (empty for GET). -/
structure Req where
  meth : Meth
  url : String
  formData : List (String × String)
deriving DecidableEq

/-- Result of `submit_translation`: `ok` models returning `True`, `err`
models raising a typed error with a message. -/
inductive SubmitResult
  | ok
  | err (kind : DDTSSErrorKind) (msg : String)
deriving DecidableEq

/-- Step 1 request of `submit_translation`: GET the fetch endpoint. -/
def fetch_req (lang pkg : String) : Req :=
  ⟨.get, fetch_url lang pkg, []⟩

/-- Step 2 request of `submit_translation`: GET the translate page. -/
def translate_get_req (lang pkg : String) : Req :=
  ⟨.get, translate_url lang pkg, []⟩

/-- Step 3 request of `submit_translation`: POST the translation form. -/
def translate_post_req (lang pkg short long comment : String) : Req :=
  ⟨.post, translate_url lang pkg,
   [("short", short), ("long", long), ("comment", comment),
    ("submit", "Submit"), ("_charset_", "UTF-8")]⟩

/-- Models `DDTSSClient.submit_translation` over a network oracle `net`.
Returns the list of requests actually issued, in order, together with the
outcome.  Each response body runs through the classifier before the next
request is issued; the translate page is additionally rejected when it still
shows a Fetching-package placeholder; after the POST, success is a body
containing the word submitted (lower-cased comparison) or an HTTP status of
200, 301 or 302, and anything else raises the generic error. -/
def submit_translation (net : Req → Resp) (lang package short long comment : String) :
    List Req × SubmitResult :=
  let r1 := fetch_req lang package
  let f := net r1
  match check_error_full f.body with
  | some e => ([r1], .err e.1 e.2)
  | none =>
    let r2 := translate_get_req lang package
    let g := net r2
    match check_error_full g.body with
    | some e => ([r1, r2], .err e.1 e.2)
    | none =>
      if strContains g.body "Fetching package" then
        ([r1, r2], .err .serverError ("Package " ++ package ++ " not available for translation"))
      else
        let r3 := translate_post_req lang package short long comment
        let p := net r3
        match check_error_full p.body with
        | some e => ([r1, r2, r3], .err e.1 e.2)
        | none =>
          if containsSub (toLowerList p.body.toList) "submitted".toList then
            ([r1, r2, r3], .ok)
          else if p.status == 200 || p.status == 301 || p.status == 302 then
            ([r1, r2, r3], .ok)
          else
            ([r1, r2, r3],
             .err .serverError
               ("Unexpected response after submit (HTTP " ++ String.mk (natToChars p.status) ++ ")"))

/-! ## Stats page (`DDTSSClient.get_stats`) -/

/-- Tokens of the fixed stats regex: a literal, a lazy dot-all gap, or a
greedy captured digit group. -/
inductive Tok
  | lit (pat : List Char)
  | anyLazy
  | digits

/-- Backtracking matcher for a token sequence at the head of `s`, following
Python regex preference order: lazy gaps try shorter expansions first, digit
groups try longer captures first, and earlier choice points have priority.
Returns the captured digit groups of the first match in preference order. -/
def matchToks : List Tok → List Char → Option (List (List Char))
  | [], _ => some []
  | .lit pat :: ts, s =>
    if isPre pat s then matchToks ts (s.drop pat.length) else none
  | .anyLazy :: ts, s =>
    (List.range (s.length + 1)).findSome? (fun i => matchToks ts (s.drop i))
  | .digits :: ts, s =>
    (List.range (s.takeWhile Char.isDigit).length).reverse.findSome? (fun j =>
      (matchToks ts (s.drop (j + 1))).map (fun caps => s.take (j + 1) :: caps))

/-- Token form of the stats pattern
`Pending translation.*?(d+).*?Pending review.*?(d+).*?Sent.*?(d+)`. -/
def statsToks : List Tok :=
  [.lit "Pending translation".toList, .anyLazy, .digits,
   .anyLazy, .lit "Pending review".toList, .anyLazy, .digits,
   .anyLazy, .lit "Sent".toList, .anyLazy, .digits]

/-- Search form of the stats pattern: `re.search` scans for the leftmost
match, which a leading lazy gap reproduces. -/
def searchToks : List Tok := .anyLazy :: statsToks

/-- The three counters returned by `get_stats`. -/
structure Stats where
  pending_translation : Nat
  pending_review : Nat
  sent : Nat
deriving DecidableEq

/-- Models `DDTSSClient.get_stats` applied to an already-fetched body: the
three counters default to zero and are overwritten by the captured integers
when the combined pattern matches. -/
def get_stats (body : String) : Stats :=
  match matchToks searchToks body.toList with
  | some [a, b, c] => ⟨natOfDigits a, natOfDigits b, natOfDigits c⟩
  | _ => ⟨0, 0, 0⟩

/-- Declarative matching relation for token sequences: `TMatch ts s caps`
holds when `ts` matches a prefix of `s` capturing the digit groups `caps`.
This is the specification-level meaning of the pattern matching somewhere
(for `searchToks`, anywhere) in the body. -/
inductive TMatch : List Tok → List Char → List (List Char) → Prop
  | nil (rest : List Char) : TMatch [] rest []
  | lit (pat : List Char) (ts : List Tok) (s : List Char) (caps : List (List Char)) :
      TMatch ts s caps → TMatch (.lit pat :: ts) (pat ++ s) caps
  | anyL (pre : List Char) (ts : List Tok) (s : List Char) (caps : List (List Char)) :
      TMatch ts s caps → TMatch (.anyLazy :: ts) (pre ++ s) caps
  | digs (ds : List Char) (ts : List Tok) (s : List Char) (caps : List (List Char)) :
      ds ≠ [] → (∀ c ∈ ds, c.isDigit) → TMatch ts s caps →
      TMatch (.digits :: ts) (ds ++ s) (ds :: caps)

/-! ## Translation queue (`QueueItem`, `_load_queue`) -/

/-- Status constants of `QueueItem` in `main.py`. -/
def STATUS_READY : String := "ready"

/-- Transient in-flight status. -/
def STATUS_SENDING : String := "sending"

/-- Terminal success status. -/
def STATUS_SENT : String := "sent"

/-- Failure status, paired with an error message. -/
def STATUS_ERROR : String := "error"

/-- A queued translation, mirroring the `QueueItem` class fields. -/
structure QueueItem where
  package : String
  md5 : String
  short : String
  long_text : String
  status : String
  error_msg : String
deriving DecidableEq

instance : Inhabited QueueItem := ⟨⟨"", "", "", "", STATUS_READY, ""⟩⟩

/-- One JSON record of the persisted queue file: each field is optional
because a stored dict may lack any key. -/
structure QueueRecord where
  package : Option String
  md5 : Option String
  short : Option String
  long_text : Option String
  status : Option String
  error_msg : Option String
deriving DecidableEq

/-- The observable states of the persisted queue file as `_load_queue` can
encounter them: absent, unreadable (OSError), undecodable (JSONDecodeError),
or a decoded list of records. -/
inductive QueueFile
  | missing
  | unreadable
  | invalidJson
  | records (rs : List QueueRecord)

/-- Conversion of one record to a `QueueItem`, mirroring the loop body of
`_load_queue`: `package`, `md5` and `short` are accessed with mandatory
indexing (`none` models the KeyError), the other fields fall back to
defaults via `dict.get`. -/
def loadRecord (d : QueueRecord) : Option QueueItem :=
  match d.package, d.md5, d.short with
  | some p, some m, some s =>
    some ⟨p, m, s, d.long_text.getD "", d.status.getD STATUS_READY, d.error_msg.getD ""⟩
  | _, _, _ => none

/-- Conversion of the full record list: a KeyError anywhere aborts the whole
load (the partially built list is discarded by the exception handler). -/
def loadItems : List QueueRecord → Option (List QueueItem)
  | [] => some []
  | d :: rest =>
    match loadRecord d, loadItems rest with
    | some it, some its => some (it :: its)
    | _, _ => none

/-- Models `_load_queue`: every failure mode yields the empty queue. -/
def load_queue : QueueFile → List QueueItem
  | .missing => []
  | .unreadable => []
  | .invalidJson => []
  | .records rs =>
    match loadItems rs with
    | some items => items
    | none => []

/-! ## Queue upsert (`_on_add_to_queue`) -/

/-- String-level Python `str.strip()`. -/
def pyStripS (s : String) : String := ⟨pyStrip s.toList⟩

/-- Models `text.split(chr(10), 1)` followed by the strip of the remainder:
the first line becomes the short description, the stripped rest the long
description. -/
def split_draft (t : String) : String × String :=
  match splitFirst t.toList ['\n'] with
  | some (a, b) => (⟨a⟩, ⟨pyStrip b⟩)
  | none => (t, "")

/-- The update-or-append loop of `_on_add_to_queue`: the first item with the
same `(package, md5)` key is updated in place (content replaced, status reset
to ready, error cleared); without a match a fresh item is appended. -/
def upsert_item (pkg md5 short long_text : String) : List QueueItem → List QueueItem
  | [] => [⟨pkg, md5, short, long_text, STATUS_READY, ""⟩]
  | q :: rest =>
    if q.package == pkg && q.md5 == md5 then
      { q with short := short, long_text := long_text,
               status := STATUS_READY, error_msg := "" } :: rest
    else q :: upsert_item pkg md5 short long_text rest

/-- Models `_on_add_to_queue` on the queue state: an empty (after stripping)
translation text leaves the queue unchanged, otherwise the text is split
into short and long parts and upserted under the `(package, md5)` key. -/
def add_to_queue (queue : List QueueItem) (pkg md5 text : String) : List QueueItem :=
  let t := pyStripS text
  if t = "" then queue
  else
    let sl := split_draft t
    upsert_item pkg md5 sl.1 sl.2 queue

/-! ## Batch submission (`_batch_send_worker`, `_on_batch_cancel`) -/

/-- Outcome of submitting one item, as the try/except of the batch loop sees
it: success, or an exception carrying `str(exc)`. -/
inductive BatchOutcome
  | success
  | failure (msg : String)
deriving DecidableEq

/-- Maps a `submit_translation` result to the batch-loop outcome: a raised
error is caught and its message recorded. -/
def outcomeOf : SubmitResult → BatchOutcome
  | .ok => .success
  | .err _ m => .failure m

/-- The per-item loop of `_batch_send_worker` over the ready list, starting
at loop index `i`: before each item the cancellation flag is read (a break
leaves the remaining items untouched); otherwise the item ends as sent or as
errored with the exception message, and the loop continues regardless.
Returns the processed list and the sent/error counters. -/
def processReady (cancel : Nat → Bool) (outcome : Nat → BatchOutcome) :
    Nat → List QueueItem → List QueueItem × Nat × Nat
  | _, [] => ([], 0, 0)
  | i, item :: rest =>
    if cancel i then (item :: rest, 0, 0)
    else
      match outcome i with
      | .success =>
        let r := processReady cancel outcome (i + 1) rest
        ({ item with status := STATUS_SENT } :: r.1, r.2.1 + 1, r.2.2)
      | .failure msg =>
        let r := processReady cancel outcome (i + 1) rest
        ({ item with status := STATUS_ERROR, error_msg := msg } :: r.1, r.2.1, r.2.2 + 1)

/-- Writes the processed ready items back into the queue at the positions of
the ready items; models the in-place mutation of the shared `QueueItem`
objects (the ready list aliases the queue). -/
def mergeBack : List QueueItem → List QueueItem → List QueueItem
  | [], _ => []
  | q :: rest, ps =>
    if q.status == STATUS_READY then
      match ps with
      | p :: ps2 => p :: mergeBack rest ps2
      | [] => q :: mergeBack rest []
    else q :: mergeBack rest ps

/-- Final state of one batch run: the queue and the summary counters
(`sent`, `errors`, out of `total`). -/
structure BatchResult where
  queue : List QueueItem
  sent : Nat
  errors : Nat
  total : Nat
deriving DecidableEq

/-- Models `_batch_send_worker`: snapshots the ready items, drives them
through `processReady`, and reports the summary counts out of the snapshot
size. -/
def batch_send_worker (cancel : Nat → Bool) (outcome : Nat → BatchOutcome)
    (queue : List QueueItem) : BatchResult :=
  let ready := queue.filter (fun q => q.status == STATUS_READY)
  let r := processReady cancel outcome 0 ready
  ⟨mergeBack queue r.1, r.2.1, r.2.2, ready.length⟩

/-- Cancellation flag that is never set. -/
def noCancel : Nat → Bool := fun _ => false

/-- Cancellation flag raised after item `i` finishes and before item `i + 1`
starts: the check before item `j` reads true exactly when `i < j` (the flag,
once set by `_on_batch_cancel`, stays set). -/
def cancelAfter (i : Nat) : Nat → Bool := fun j => decide (i < j)

/-- Specification-side description of the effect of one submission outcome
on one item. -/
def applyOutcome (o : BatchOutcome) (item : QueueItem) : QueueItem :=
  match o with
  | .success => { item with status := STATUS_SENT }
  | .failure msg => { item with status := STATUS_ERROR, error_msg := msg }

/-- Specification-side indexed map, used to state what the batch loop does
to the ready list. -/
def mapIdxFrom (f : Nat → QueueItem → QueueItem) : Nat → List QueueItem → List QueueItem
  | _, [] => []
  | i, x :: xs => f i x :: mapIdxFrom f (i + 1) xs

/-! ## Bulk exchange format (`_on_export_po_response`, `_parse_imported_po`) -/

/-- One imported translation tuple `(package, md5, short, long)` as built by
`_parse_imported_po`. -/
structure POEntry where
  package : List Char
  md5 : List Char
  short : List Char
  long : List Char
deriving DecidableEq

/-- Parser state of the `_parse_imported_po` line loop. -/
structure PState where
  pkg : Option (List Char)
  md5 : Option (List Char)
  ctx : Option (List Char)
  inStr : Bool
  buf : List (List Char)
  out : List POEntry
deriving DecidableEq

/-- Initial parser state. -/
def po_init : PState := ⟨none, none, none, false, [], []⟩

/-- Line prefix introducing the package name comment. -/
def pkgPrefix : List Char := "#. Package: ".toList

/-- Line prefix introducing the content-hash comment. -/
def md5Prefix : List Char := "#. MD5: ".toList

/-- Line prefix of a long-description context tag. -/
def ctxLongPrefix : List Char := "msgctxt \"long:".toList

/-- Line prefix of a generic context tag. -/
def ctxPrefix : List Char := "msgctxt ".toList

/-- Line prefix of a msgid line. -/
def msgidPrefix : List Char := "msgid ".toList

/-- Line prefix of a msgstr line. -/
def msgstrPrefix : List Char := "msgstr ".toList

/-- Models `_po_unescape_joined`: joins the collected msgstr pieces and
applies the three unescaping replacements in source order. -/
def po_unescape_joined (parts : List (List Char)) : List Char :=
  replace2 '\\' '\\' ['\\']
    (replace2 '\\' '"' ['"']
      (replace2 '\\' 'n' ['\n'] parts.flatten))

/-- Replacement in the translations list: updates the first entry with the
given key through `f`, or appends `mk` when no entry has the key; mirrors
the entry-merge logic inside `flush`. -/
def updFirstEntry (pk m5 : List Char) (f : POEntry → POEntry) (mk : POEntry) :
    List POEntry → List POEntry
  | [] => [mk]
  | e :: rest =>
    if e.package == pk && e.md5 == m5 then f e :: rest
    else e :: updFirstEntry pk m5 f mk rest

/-- Models the `flush` closure of `_parse_imported_po`: with a package and a
hash in scope and a non-empty unescaped text, record the text as the long
description when the current context carries a long tag, else as the short
description. -/
def po_flush (st : PState) : PState :=
  match st.pkg, st.md5 with
  | some pk, some m5 =>
    let text := pyStrip (po_unescape_joined st.buf)
    if text.isEmpty then st
    else
      match st.ctx with
      | some c =>
        if isPre "long:".toList c then
          { st with out := updFirstEntry pk m5 (fun e => { e with long := text })
                            ⟨pk, m5, [], text⟩ st.out }
        else
          { st with out := updFirstEntry pk m5 (fun e => { e with short := text })
                            ⟨pk, m5, text, []⟩ st.out }
      | none =>
        { st with out := updFirstEntry pk m5 (fun e => { e with short := text })
                          ⟨pk, m5, text, []⟩ st.out }
  | _, _ => st

/-- One iteration of the `_parse_imported_po` line loop, with the branch
chain in source order. -/
def po_step (st : PState) (line : List Char) : PState :=
  if isPre pkgPrefix line then { st with pkg := some (pyStrip (line.drop 12)) }
  else if isPre md5Prefix line then { st with md5 := some (pyStrip (line.drop 8)) }
  else if isPre ctxLongPrefix line then { st with ctx := (splitOnChar '"' line).get? 1 }
  else if isPre ctxPrefix line then
    { st with ctx := if containsSub line ['"'] then (splitOnChar '"' line).get? 1 else none }
  else if isPre msgidPrefix line then
    if st.inStr then { st with out := (po_flush st).out, buf := [], inStr := false }
    else { st with inStr := false }
  else if isPre msgstrPrefix line then
    { st with inStr := true, buf := [stripQuotes (pyStrip (line.drop 7))] }
  else if st.inStr && isPre ['"'] line then
    { st with buf := st.buf ++ [stripQuotes (pyStrip line)] }
  else if (pyStrip line).isEmpty then
    if st.inStr then { st with out := (po_flush st).out, buf := [], inStr := false, ctx := none }
    else st
  else st

/-- Models `_parse_imported_po` on a list of already-split lines: run the
line loop, perform the trailing flush, and keep only the entries whose short
translated text is non-empty. -/
def parse_po_lines (lines : List (List Char)) : List POEntry :=
  let fin := lines.foldl po_step po_init
  let fin2 := if fin.inStr then po_flush fin else fin
  fin2.out.filter (fun e => !e.short.isEmpty)

/-- Models `_parse_imported_po` on the file contents. -/
def parse_imported_po (file : List Char) : List POEntry :=
  parse_po_lines (readLines file)

/-- Models `_po_escape`: the three escaping replacements in source order
(backslash, then double quote, then newline). -/
def po_escape (s : List Char) : List Char :=
  replaceChar '\n' ['\\', 'n']
    (replaceChar '"' ['\\', '"']
      (replaceChar '\\' ['\\', '\\'] s))

/-- The per-line quoted pieces of `_po_escape_multiline` for the multi-line
case: every line but the last carries an escaped newline. -/
def quoteParts : List (List Char) → List (List Char)
  | [] => []
  | [l] => ['"' :: (po_escape l ++ ['"'])]
  | l :: l2 :: rest => ('"' :: (po_escape l ++ ['\\', 'n', '"'])) :: quoteParts (l2 :: rest)

/-- Models `_po_escape_multiline`, already split at the newlines it emits:
a single-line text becomes one quoted piece, a multi-line text becomes an
empty leading piece followed by the per-line pieces. -/
def po_escape_multiline_lines (s : List Char) : List (List Char) :=
  match splitOnChar '\n' s with
  | [l] => ['"' :: (po_escape l ++ ['"'])]
  | ls => ['"', '"'] :: quoteParts ls

/-- Prefixes the first escaped piece with the msgid keyword, producing the
file lines of one (possibly multi-line) msgid. -/
def msgidLines : List (List Char) → List (List Char)
  | [] => [msgidPrefix]
  | p :: rest => (msgidPrefix ++ p) :: rest

/-- One record of the exported package list: the fields of the `pkg` dicts
consumed by `_on_export_po_response` (`package`, `md5`, `short`, `long`). -/
structure PkgRec where
  package : List Char
  md5 : List Char
  short : List Char
  long : List Char
deriving DecidableEq

/-- The file lines one package contributes to the export: the two comment
lines, the short msgid with an empty msgstr, and, for a non-empty long text,
a context-tagged long msgid with an empty msgstr. -/
def blockLines (r : PkgRec) : List (List Char) :=
  [pkgPrefix ++ r.package,
   md5Prefix ++ r.md5,
   msgidPrefix ++ ('"' :: (po_escape r.short ++ ['"'])),
   msgstrPrefix ++ ['"', '"'],
   []] ++
  (if r.long.isEmpty then [] else
    ["#. Long description for ".toList ++ r.package,
     ctxLongPrefix ++ (r.package ++ ['"'])] ++
    msgidLines (po_escape_multiline_lines r.long) ++
    [msgstrPrefix ++ ['"', '"'], []])

/-- The header lines of the exported file. -/
def headerLines (lang : List Char) (n : Nat) : List (List Char) :=
  ['#' :: ' ' :: "DDTP translations export".toList,
   '#' :: ' ' :: ("Language: ".toList ++ lang),
   '#' :: ' ' :: ("Packages: ".toList ++ natToChars n),
   ['#'],
   msgidPrefix ++ ['"', '"'],
   msgstrPrefix ++ ['"', '"'],
   '"' :: ("Language: ".toList ++ (lang ++ "\\n\"".toList)),
   '"' :: "Content-Type: text/plain; charset=UTF-8\\n\"".toList,
   '"' :: "Content-Transfer-Encoding: 8bit\\n\"".toList,
   []]

/-- All lines of the exported file, in order. -/
def exportLines (lang : List Char) (pkgs : List PkgRec) : List (List Char) :=
  headerLines lang pkgs.length ++ (pkgs.map blockLines).flatten

/-- Models `_on_export_po_response` up to the file write: the lines joined
with newlines plus a trailing newline. -/
def export_po_file (lang : List Char) (pkgs : List PkgRec) : List Char :=
  intercalateNl (exportLines lang pkgs) ++ ['\n']

/-! ## Sample inputs used by witnesses and counterexamples -/

/-- A persisted queue file holding one item frozen in the sending state. -/
def c1_file : QueueFile :=
  .records [⟨some "pkg", some "md5", some "short", some "", some STATUS_SENDING, some ""⟩]

/-- Records for the C1 witness: one defaulted, one fully populated. -/
def c1w_rs : List QueueRecord :=
  [⟨some "a", some "m", some "s", none, none, none⟩,
   ⟨some "b", some "m2", some "s2", some "l", some STATUS_ERROR, some "x"⟩]

/-- Items that loading `c1w_rs` produces. -/
def c1w_items : List QueueItem :=
  [⟨"a", "m", "s", "", STATUS_READY, ""⟩,
   ⟨"b", "m2", "s2", "l", STATUS_ERROR, "x"⟩]

/-- A queue of three ready items for the batch scenarios. -/
def c3_queue : List QueueItem :=
  [⟨"a", "1", "s", "", STATUS_READY, ""⟩,
   ⟨"b", "2", "s", "", STATUS_READY, ""⟩,
   ⟨"c", "3", "s", "", STATUS_READY, ""⟩]

/-- A network whose every response is a locked page with a populated
heading. -/
def c3_net : Req → Resp := fun _ => ⟨200, "<h1>Translation b locked, sorry</h1>"⟩

/-- Per-item batch outcomes where item 2 (index 1) fails with the locked
error raised by `c3_net` and the other items succeed. -/
def c3_outcome : Nat → BatchOutcome := fun i =>
  if i = 1 then outcomeOf (submit_translation c3_net "sv" "b" "s" "" "").2
  else .success

/-- A network whose every response is a locked page with an empty heading,
which makes the classifier raise with an empty message. -/
def c3bad_net : Req → Resp := fun _ => ⟨200, "<h1></h1>locked, sorry"⟩

/-- Per-item batch outcomes where item 2 fails with the empty-message locked
error raised by `c3bad_net`. -/
def c3bad_outcome : Nat → BatchOutcome := fun i =>
  if i = 1 then outcomeOf (submit_translation c3bad_net "sv" "b" "s" "" "").2
  else .success

/-- A network that answers the fetch cleanly, shows a Fetching-package
placeholder on the translate page, and would answer the POST with a clean
HTTP 200. -/
def c9_net : Req → Resp := fun r =>
  if r.url == fetch_url "sv" "foo" then ⟨200, ""⟩
  else
    match r.meth with
    | .get => ⟨200, "Fetching package"⟩
    | .post => ⟨200, ""⟩

/-- A network with clean bodies everywhere and a 200 POST answer. -/
def c9b_net : Req → Resp := fun r =>
  match r.meth with
  | .get => ⟨200, "hello"⟩
  | .post => ⟨200, "done"⟩

/-- Packages for the C6 round-trip counterexample and witness. -/
def c6_pkgs : List PkgRec :=
  [⟨"mypkg".toList, "abc123".toList, "Great tool".toList, "Long line1\nline2".toList⟩,
   ⟨"p2".toList, "m2".toList, "s2".toList, []⟩]

/-- A fully valid persisted record. -/
def c10_good : QueueRecord :=
  ⟨some "goodpkg", some "m1", some "short", some "long", some STATUS_READY, some ""⟩

/-- A record missing the mandatory md5 key. -/
def c10_bad : QueueRecord :=
  ⟨some "badpkg", none, some "short", none, none, none⟩

end DdtpTranslate

namespace DdtpTranslate

/-! ## General lemmas -/

theorem loadRecord_status {d : QueueRecord} {it : QueueItem} (h : loadRecord d = some it) :
    it.status = d.status.getD STATUS_READY := by
  unfold loadRecord at h
  cases hp : d.package <;> rw [hp] at h
  · exact absurd h (by simp)
  · cases hm : d.md5 <;> rw [hm] at h
    · exact absurd h (by simp)
    · cases hs : d.short <;> rw [hs] at h
      · exact absurd h (by simp)
      · have := Option.some.inj h
        subst this
        rfl

theorem loadItems_none_of_mem {rs : List QueueRecord} {d : QueueRecord}
    (hmem : d ∈ rs) (hnone : loadRecord d = none) : loadItems rs = none := by
  induction rs with
  | nil => cases hmem
  | cons a l ih =>
    rcases List.mem_cons.1 hmem with h | h
    · subst h
      simp [loadItems, hnone]
    · unfold loadItems
      rw [ih h]
      cases loadRecord a <;> rfl

theorem check_error_eq (body : String) :
    check_error body = (error_patterns.find? (fun r => strContains body r.1)).map (fun r => r.2) := by
  unfold check_error check_error_full
  cases h : error_patterns.find? (fun r => strContains body r.1) <;> simp [h]

/-! ## Upsert lemmas -/

theorem upsert_item_length (pkg md5 short long_text : String) (q : List QueueItem) :
    (upsert_item pkg md5 short long_text q).length =
      if q.any (fun it => it.package == pkg && it.md5 == md5) then q.length
      else q.length + 1 := by
  induction q with
  | nil => simp [upsert_item]
  | cons a l ih =>
    by_cases h : (a.package == pkg && a.md5 == md5) = true
    · simp [upsert_item, h, List.any_cons]
    · rw [Bool.not_eq_true] at h
      simp only [upsert_item, h, List.any_cons, List.length_cons]
      by_cases h2 : (l.any fun it => it.package == pkg && it.md5 == md5) = true <;>
        simp [h2, ih]

theorem upsert_item_append (pkg md5 short long_text : String) (q : List QueueItem)
    (h : q.any (fun it => it.package == pkg && it.md5 == md5) = false) :
    upsert_item pkg md5 short long_text q =
      q ++ [⟨pkg, md5, short, long_text, STATUS_READY, ""⟩] := by
  induction q with
  | nil => rfl
  | cons a l ih =>
    simp only [List.any_cons, Bool.or_eq_false_iff] at h
    simp [upsert_item, h.1, ih h.2]

theorem upsert_item_idem (pkg md5 short long_text : String) (q : List QueueItem) :
    upsert_item pkg md5 short long_text (upsert_item pkg md5 short long_text q) =
      upsert_item pkg md5 short long_text q := by
  induction q with
  | nil => simp [upsert_item]
  | cons a l ih =>
    by_cases h : (a.package == pkg && a.md5 == md5) = true
    · have hp : (a.package == pkg) = true ∧ (a.md5 == md5) = true := by
        simpa using h
      simp [upsert_item, h, hp.1, hp.2]
    · simp [upsert_item, h, ih]

theorem upsert_item_present (pkg md5 short long_text : String) (q : List QueueItem) :
    (upsert_item pkg md5 short long_text q).any
      (fun it => it.package == pkg && it.md5 == md5 && it.status == STATUS_READY &&
        it.error_msg == "" && it.short == short && it.long_text == long_text) = true := by
  induction q with
  | nil => simp [upsert_item]
  | cons a l ih =>
    by_cases h : (a.package == pkg && a.md5 == md5) = true
    · have hp : (a.package == pkg) = true ∧ (a.md5 == md5) = true := by
        simpa using h
      simp [upsert_item, h, List.any_cons, hp.1, hp.2]
    · simp [upsert_item, h, List.any_cons, ih]

/-! ## Batch worker lemmas -/

theorem processReady_length (cancel : Nat → Bool) (outcome : Nat → BatchOutcome) :
    ∀ (items : List QueueItem) (k : Nat),
      (processReady cancel outcome k items).1.length = items.length := by
  intro items
  induction items with
  | nil => intro k; rfl
  | cons x xs ih =>
    intro k
    by_cases hc : cancel k = true
    · simp [processReady, hc]
    · rw [Bool.not_eq_true] at hc
      cases ho : outcome k <;> simp [processReady, hc, ho, ih]

theorem processReady_noCancel_items (outcome : Nat → BatchOutcome) :
    ∀ (items : List QueueItem) (k : Nat),
      (processReady noCancel outcome k items).1 =
        mapIdxFrom (fun j it => applyOutcome (outcome j) it) k items := by
  intro items
  induction items with
  | nil => intro k; rfl
  | cons x xs ih =>
    intro k
    cases ho : outcome k <;>
      simp [processReady, noCancel, ho, mapIdxFrom, applyOutcome, ih]

theorem processReady_noCancel_counts (outcome : Nat → BatchOutcome) :
    ∀ (items : List QueueItem) (k : Nat),
      (processReady noCancel outcome k items).2.1 +
        (processReady noCancel outcome k items).2.2 = items.length := by
  intro items
  induction items with
  | nil => intro k; rfl
  | cons x xs ih =>
    intro k
    cases ho : outcome k <;> simp [processReady, noCancel, ho] <;>
      (have hcount := ih (k + 1); omega)

theorem processReady_noCancel_status (outcome : Nat → BatchOutcome) :
    ∀ (items : List QueueItem) (k : Nat),
      ∀ p ∈ (processReady noCancel outcome k items).1,
        p.status = STATUS_SENT ∨ p.status = STATUS_ERROR := by
  intro items
  induction items with
  | nil => intro k p hp; cases hp
  | cons x xs ih =>
    intro k p hp
    cases ho : outcome k <;> rw [show processReady noCancel outcome k (x :: xs) =
        (match outcome k with
         | .success =>
           let r := processReady noCancel outcome (k + 1) xs
           ({ x with status := STATUS_SENT } :: r.1, r.2.1 + 1, r.2.2)
         | .failure msg =>
           let r := processReady noCancel outcome (k + 1) xs
           ({ x with status := STATUS_ERROR, error_msg := msg } :: r.1, r.2.1, r.2.2 + 1))
      from rfl] at hp <;> rw [ho] at hp <;>
      rcases List.mem_cons.1 hp with h | h
    · left; rw [h]
    · exact ih (k + 1) p h
    · right; rw [h]
    · exact ih (k + 1) p h

theorem mergeBack_sound :
    ∀ (queue ps : List QueueItem),
      (queue.filter (fun q => q.status == STATUS_READY)).length ≤ ps.length →
      ∀ q ∈ mergeBack queue ps, q ∈ ps ∨ (q.status == STATUS_READY) = false := by
  intro queue
  induction queue with
  | nil => intro ps h q hq; cases hq
  | cons a rest ih =>
    intro ps h q hq
    by_cases ha : (a.status == STATUS_READY) = true
    · simp only [List.filter_cons, ha, if_true, List.length_cons] at h
      cases ps with
      | nil => exact absurd h (by simp)
      | cons p ps2 =>
        rw [show mergeBack (a :: rest) (p :: ps2) = p :: mergeBack rest ps2 by
          simp [mergeBack, ha]] at hq
        rcases List.mem_cons.1 hq with h2 | h2
        · exact Or.inl (h2 ▸ List.mem_cons_self p ps2)
        · rcases ih ps2 (by simp only [List.length_cons] at h; omega) q h2 with h3 | h3
          · exact Or.inl (List.mem_cons_of_mem p h3)
          · exact Or.inr h3
    · have ha2 : (a.status == STATUS_READY) = false := by simpa using ha
      simp only [List.filter_cons, ha2, Bool.false_eq_true, if_false] at h
      rw [show mergeBack (a :: rest) ps = a :: mergeBack rest ps by
        simp [mergeBack, ha2]] at hq
      rcases List.mem_cons.1 hq with h2 | h2
      · exact Or.inr (h2 ▸ ha2)
      · exact ih ps h q h2

theorem processReady_cancelAfter (i : Nat) (outcome : Nat → BatchOutcome) :
    ∀ (items : List QueueItem) (k : Nat), k ≤ i + 1 →
      (processReady (cancelAfter i) outcome k items).1 =
        mapIdxFrom (fun j it => applyOutcome (outcome j) it) k (items.take (i + 1 - k)) ++
          items.drop (i + 1 - k) := by
  intro items
  induction items with
  | nil => intro k hk; simp [processReady, mapIdxFrom]
  | cons x xs ih =>
    intro k hk
    by_cases hki : i < k
    · have hz : i + 1 - k = 0 := by omega
      have hc : cancelAfter i k = true := by simp [cancelAfter, hki]
      simp [processReady, hc, hz, mapIdxFrom]
    · have hc : cancelAfter i k = false := by simp [cancelAfter]; omega
      have h1 : i + 1 - k = (i - k) + 1 := by omega
      have h2 : i + 1 - (k + 1) = i - k := by omega
      cases ho : outcome k <;>
        simp only [processReady, hc, Bool.false_eq_true, if_false, ho, h1,
          List.take_succ_cons, List.drop_succ_cons, mapIdxFrom, ih (k + 1) (by omega), h2,
          List.cons_append, applyOutcome]

theorem mapIdxFrom_applyOutcome_all (outcome : Nat → BatchOutcome) :
    ∀ (items : List QueueItem) (k : Nat),
      (mapIdxFrom (fun j it => applyOutcome (outcome j) it) k items).all
        (fun q => q.status == STATUS_SENT || q.status == STATUS_ERROR) = true := by
  intro items
  induction items with
  | nil => intro k; rfl
  | cons x xs ih =>
    intro k
    rw [show mapIdxFrom (fun j it => applyOutcome (outcome j) it) k (x :: xs) =
        applyOutcome (outcome k) x ::
          mapIdxFrom (fun j it => applyOutcome (outcome j) it) (k + 1) xs from rfl]
    rw [List.all_cons, ih (k + 1), Bool.and_true]
    cases ho : outcome k <;> simp only [applyOutcome] <;> decide

theorem filter_drop_all_ready (queue : List QueueItem) (n : Nat) :
    (((queue.filter (fun q => q.status == STATUS_READY)).drop n).all
      (fun q => q.status == STATUS_READY)) = true := by
  rw [List.all_eq_true]
  intro q hq
  have h1 : q ∈ queue.filter (fun q => q.status == STATUS_READY) :=
    List.mem_of_mem_drop hq
  exact (List.mem_filter.1 h1).2

/-! ## Claim theorems: C2, C10, C1, C5 -/

/-- C2: the error classifier evaluates the fixed case-sensitive substring
table top to bottom, raises exactly the kind of the first matching rule (the
table being the one the specification lists), never returns normally when a
phrase is present, and returns without raising when no phrase is present. -/
theorem C2_classifier_first_match (body : String) :
    check_error body = claimClassify body ∧
    (check_error body = none ↔ ∀ p ∈ claimTable, strContains body p.1 = false) := by
  have htab : claimTable = error_patterns := rfl
  constructor
  · rw [check_error_eq]
    unfold claimClassify
    rw [htab]
  · rw [check_error_eq, htab]
    cases h : error_patterns.find? (fun r => strContains body r.1) with
    | none =>
      simp only [Option.map_none', true_iff]
      have := List.find?_eq_none.1 h
      intro p hp
      exact Bool.not_eq_true _ ▸ (this p hp)
    | some r =>
      simp only [Option.map_some']
      constructor
      · intro hc
        exact absurd hc (by simp)
      · intro hall
        have hr := List.find?_some h
        have hmem := List.mem_of_find?_eq_some h
        rw [hall r hmem] at hr
        cases hr

/-- C10: a missing, unreadable or undecodable queue file, or any record
missing a required key, makes loading return the empty queue without
raising; one corrupt record discards every persisted item. -/
theorem C10_corrupt_load_empty :
    load_queue .missing = [] ∧ load_queue .unreadable = [] ∧ load_queue .invalidJson = [] ∧
    ∀ (rs : List QueueRecord) (d : QueueRecord), d ∈ rs → loadRecord d = none →
      load_queue (.records rs) = [] := by
  refine ⟨rfl, rfl, rfl, ?_⟩
  intro rs d hmem hnone
  simp only [load_queue]
  rw [loadItems_none_of_mem hmem hnone]

/-- Witness for C10: a valid record followed by a record missing its md5 key
loads as the empty queue, discarding the valid record. -/
theorem C10_witness :
    c10_bad ∈ [c10_good, c10_bad] ∧ loadRecord c10_bad = none ∧
    loadRecord c10_good ≠ none ∧
    load_queue (.records [c10_good, c10_bad]) = [] :=
  ⟨by decide, by decide, by decide,
   C10_corrupt_load_empty.2.2.2 [c10_good, c10_bad] c10_bad (by decide) (by decide)⟩

/-- Counterexample to C1 as stated: a persisted item whose stored status is
the sending state is reloaded with status sending, not converted to the
error status. -/
theorem C1_counterexample :
    (load_queue c1_file).map (fun q => q.status) = [STATUS_SENDING] ∧
    STATUS_SENDING ≠ STATUS_ERROR ∧ STATUS_SENDING ≠ STATUS_SENT := by
  refine ⟨by decide, by decide, by decide⟩

/-- C1 amended: loading preserves every stored status verbatim (an absent
status defaults to ready); in particular an item stored in the sending state
reloads as sending — it is neither converted to error nor restored as
sent. -/
theorem C1_amended_load_preserves_status (rs : List QueueRecord) (items : List QueueItem)
    (h : loadItems rs = some items) :
    load_queue (.records rs) = items ∧
    items.map (fun q => q.status) = rs.map (fun d => d.status.getD STATUS_READY) := by
  constructor
  · simp only [load_queue]
    rw [h]
  · induction rs generalizing items with
    | nil =>
      unfold loadItems at h
      have := Option.some.inj h
      subst this
      rfl
    | cons d rest ih =>
      unfold loadItems at h
      cases hr : loadRecord d <;> rw [hr] at h
      · exact absurd h (by simp)
      · cases hrest : loadItems rest <;> rw [hrest] at h
        · exact absurd h (by simp)
        · have := Option.some.inj h
          subst this
          simp only [List.map_cons, List.cons.injEq]
          exact ⟨loadRecord_status hr, ih _ hrest⟩

/-- Witness for the amended C1: a two-record file whose statuses (one
defaulted, one stored) are preserved by loading. -/
theorem C1_witness :
    loadItems c1w_rs = some c1w_items ∧
    (load_queue (.records c1w_rs) = c1w_items ∧
     c1w_items.map (fun q => q.status) =
       c1w_rs.map (fun d => d.status.getD STATUS_READY)) :=
  ⟨by decide, C1_amended_load_preserves_status c1w_rs c1w_items (by decide)⟩

/-- C5: adding a draft is an idempotent upsert keyed on (package, md5): with
an existing key the first matching item is rewritten in place (content
replaced, status reset to ready, error cleared) and the length is unchanged;
without one a fresh ready item is appended; repeating the identical add
never changes the queue again. -/
theorem C5_upsert_idempotent (queue : List QueueItem) (pkg md5 text : String)
    (h : pyStripS text ≠ "") :
    (add_to_queue queue pkg md5 text).length =
      (if queue.any (fun it => it.package == pkg && it.md5 == md5) then queue.length
       else queue.length + 1) ∧
    (queue.any (fun it => it.package == pkg && it.md5 == md5) = false →
      add_to_queue queue pkg md5 text =
        queue ++ [⟨pkg, md5, (split_draft (pyStripS text)).1,
                   (split_draft (pyStripS text)).2, STATUS_READY, ""⟩]) ∧
    add_to_queue (add_to_queue queue pkg md5 text) pkg md5 text =
      add_to_queue queue pkg md5 text ∧
    (add_to_queue queue pkg md5 text).any
      (fun it => it.package == pkg && it.md5 == md5 && it.status == STATUS_READY &&
        it.error_msg == "" && it.short == (split_draft (pyStripS text)).1 &&
        it.long_text == (split_draft (pyStripS text)).2) = true := by
  simp only [add_to_queue, h, if_false]
  refine ⟨upsert_item_length _ _ _ _ _, ?_, ?_, upsert_item_present _ _ _ _ _⟩
  · intro hno
    exact upsert_item_append _ _ _ _ _ hno
  · exact upsert_item_idem _ _ _ _ _

/-- Witness for C5: one add that updates an existing key in place and one
add that appends under a fresh key. -/
theorem C5_witness :
    (pyStripS " new short\nnew long " ≠ "") ∧
    ((add_to_queue [⟨"p", "m", "old", "ol", STATUS_ERROR, "boom"⟩] "p" "m"
        " new short\nnew long ").length = 1 ∧
     (add_to_queue [⟨"q", "m2", "old", "ol", STATUS_ERROR, "boom"⟩] "p" "m"
        " new short\nnew long ").length = 2) := by
  have h : pyStripS " new short\nnew long " ≠ "" := by decide
  refine ⟨h, ?_, ?_⟩
  · have := (C5_upsert_idempotent [⟨"p", "m", "old", "ol", STATUS_ERROR, "boom"⟩]
      "p" "m" " new short\nnew long " h).1
    rw [this]
    decide
  · have := (C5_upsert_idempotent [⟨"q", "m2", "old", "ol", STATUS_ERROR, "boom"⟩]
      "p" "m" " new short\nnew long " h).1
    rw [this]
    decide

/-- C3 amended: with no cancellation every ready item is processed (none is
left ready), the summary counts satisfy sent plus errors equals the batch
total (the number of ready items), and the processed ready list is exactly
the index-wise application of each submission outcome — a failure marks the
item with the error status and the message of the raised failure, and never
aborts the remaining items.  (The claim additionally said the recorded
message is always non-empty; the counterexample shows the classifier can
raise with an empty message, so the amended claim records exactly the
raised message.) -/
theorem C3_batch_continues_after_failure (outcome : Nat → BatchOutcome)
    (queue : List QueueItem) :
    (batch_send_worker noCancel outcome queue).sent +
        (batch_send_worker noCancel outcome queue).errors =
      (batch_send_worker noCancel outcome queue).total ∧
    (batch_send_worker noCancel outcome queue).total =
      (queue.filter (fun q => q.status == STATUS_READY)).length ∧
    (∀ q ∈ (batch_send_worker noCancel outcome queue).queue, q.status ≠ STATUS_READY) ∧
    (processReady noCancel outcome 0 (queue.filter (fun q => q.status == STATUS_READY))).1 =
      mapIdxFrom (fun j it => applyOutcome (outcome j) it) 0
        (queue.filter (fun q => q.status == STATUS_READY)) := by
  refine ⟨?_, rfl, ?_, processReady_noCancel_items outcome _ 0⟩
  · exact processReady_noCancel_counts outcome _ 0
  · intro q hq
    have hlen : (queue.filter (fun q => q.status == STATUS_READY)).length ≤
        (processReady noCancel outcome 0
          (queue.filter (fun q => q.status == STATUS_READY))).1.length := by
      rw [processReady_length]
    rcases mergeBack_sound queue _ hlen q hq with h | h
    · rcases processReady_noCancel_status outcome _ 0 q h with h2 | h2 <;>
        rw [h2] <;> decide
    · intro h2
      rw [h2] at h
      exact absurd h (by decide)

/-- Witness for the amended C3, instantiating the scenario of the claim:
three ready items where item 2 raises a locked error produced by the real
classifier; the summary reports 2 sent and 1 error out of 3, items 1 and 3
end sent, item 2 ends errored with the non-empty raised message. -/
theorem C3_witness :
    (batch_send_worker noCancel c3_outcome c3_queue).sent = 2 ∧
    (batch_send_worker noCancel c3_outcome c3_queue).errors = 1 ∧
    (batch_send_worker noCancel c3_outcome c3_queue).total = 3 ∧
    (batch_send_worker noCancel c3_outcome c3_queue).queue.map (fun q => q.status) =
      [STATUS_SENT, STATUS_ERROR, STATUS_SENT] ∧
    ((batch_send_worker noCancel c3_outcome c3_queue).queue.getD 1 default).error_msg =
      "Translation b locked, sorry" ∧
    ((batch_send_worker noCancel c3_outcome c3_queue).queue.getD 1 default).status ≠
      STATUS_READY := by
  refine ⟨by decide, by decide, by decide, by decide, by decide, ?_⟩
  exact (C3_batch_continues_after_failure c3_outcome c3_queue).2.2.1 _ (by decide)

/-- Counterexample to C3 as stated: when the locked page carries an empty
heading, the classifier raises the locked error with an empty message, and
the failed item is marked errored with an empty — not non-empty —
message. -/
theorem C3_counterexample :
    (submit_translation c3bad_net "sv" "b" "s" "" "").2 =
      .err .lockedError "" ∧
    ((batch_send_worker noCancel c3bad_outcome c3_queue).queue.getD 1 default).status =
      STATUS_ERROR ∧
    ((batch_send_worker noCancel c3bad_outcome c3_queue).queue.getD 1 default).error_msg =
      "" := by
  refine ⟨by decide, by decide, by decide⟩

/-- C4: with the cancellation flag raised after item `i` finishes and before
item `i + 1` starts, the batch loop processes exactly the ready items
`0 .. i` (each ending sent or errored according to its outcome) and stops:
the ready items from `i + 1` on are returned untouched, still ready for a
future run. -/
theorem C4_cooperative_cancellation (outcome : Nat → BatchOutcome)
    (queue : List QueueItem) (i : Nat) :
    (processReady (cancelAfter i) outcome 0
        (queue.filter (fun q => q.status == STATUS_READY))).1 =
      mapIdxFrom (fun j it => applyOutcome (outcome j) it) 0
          ((queue.filter (fun q => q.status == STATUS_READY)).take (i + 1)) ++
        (queue.filter (fun q => q.status == STATUS_READY)).drop (i + 1) ∧
    ((queue.filter (fun q => q.status == STATUS_READY)).drop (i + 1)).all
      (fun q => q.status == STATUS_READY) = true ∧
    (mapIdxFrom (fun j it => applyOutcome (outcome j) it) 0
        ((queue.filter (fun q => q.status == STATUS_READY)).take (i + 1))).all
      (fun q => q.status == STATUS_SENT || q.status == STATUS_ERROR) = true ∧
    (batch_send_worker (cancelAfter i) outcome queue).queue =
      mergeBack queue (processReady (cancelAfter i) outcome 0
        (queue.filter (fun q => q.status == STATUS_READY))).1 := by
  refine ⟨?_, filter_drop_all_ready queue (i + 1), mapIdxFrom_applyOutcome_all outcome _ 0, rfl⟩
  have h := processReady_cancelAfter i outcome
    (queue.filter (fun q => q.status == STATUS_READY)) 0 (by omega)
  simpa using h

/-- C7: submit_translation performs the protocol steps in order — the fetch
request, then the GET of the translate page, then the POST of the
short/long/comment form fields — and each response body goes through the
error classifier before the next step is issued: a classifier hit on the
fetch body stops the trace at one request, a classifier hit or a
Fetching-package placeholder on the translate body stops it at two, and
otherwise all three requests are issued, the POST carrying exactly the
short, long and comment fields. -/
theorem C7_protocol_order (net : Req → Resp) (lang pkg s l c : String) :
    (submit_translation net lang pkg s l c).1 =
      [fetch_req lang pkg, translate_get_req lang pkg,
       translate_post_req lang pkg s l c].take (submit_translation net lang pkg s l c).1.length ∧
    (submit_translation net lang pkg s l c).1.length =
      (if (check_error (net (fetch_req lang pkg)).body).isSome then 1
       else if (check_error (net (translate_get_req lang pkg)).body).isSome
            || strContains (net (translate_get_req lang pkg)).body "Fetching package" then 2
       else 3) ∧
    1 ≤ (submit_translation net lang pkg s l c).1.length ∧
    (translate_post_req lang pkg s l c).formData =
      [("short", s), ("long", l), ("comment", c), ("submit", "Submit"), ("_charset_", "UTF-8")] := by
  cases h1 : check_error_full (net (fetch_req lang pkg)).body with
  | some e =>
    have hfst : (submit_translation net lang pkg s l c).1 = [fetch_req lang pkg] := by
      simp only [submit_translation, h1]
    refine ⟨?_, ?_, ?_, rfl⟩
    · rw [hfst]; rfl
    · rw [hfst]; simp [check_error, h1]
    · rw [hfst]; simp
  | none =>
    cases h2 : check_error_full (net (translate_get_req lang pkg)).body with
    | some e =>
      have hfst : (submit_translation net lang pkg s l c).1 =
          [fetch_req lang pkg, translate_get_req lang pkg] := by
        simp only [submit_translation, h1, h2]
      refine ⟨?_, ?_, ?_, rfl⟩
      · rw [hfst]; rfl
      · rw [hfst]; simp [check_error, h1, h2]
      · rw [hfst]; simp
    | none =>
      by_cases h3 : strContains (net (translate_get_req lang pkg)).body "Fetching package" = true
      · have hfst : (submit_translation net lang pkg s l c).1 =
            [fetch_req lang pkg, translate_get_req lang pkg] := by
          simp only [submit_translation, h1, h2, h3, if_true]
        refine ⟨?_, ?_, ?_, rfl⟩
        · rw [hfst]; rfl
        · rw [hfst]; simp [check_error, h1, h2, h3]
        · rw [hfst]; simp
      · rw [Bool.not_eq_true] at h3
        have hfst : (submit_translation net lang pkg s l c).1 =
            [fetch_req lang pkg, translate_get_req lang pkg,
             translate_post_req lang pkg s l c] := by
          cases h4 : check_error_full (net (translate_post_req lang pkg s l c)).body with
          | some e => simp only [submit_translation, h1, h2, h3, Bool.false_eq_true,
              if_false, h4]
          | none =>
            simp only [submit_translation, h1, h2, h3, Bool.false_eq_true, if_false, h4]
            split
            · rfl
            · split <;> rfl
        refine ⟨?_, ?_, ?_, rfl⟩
        · rw [hfst]; rfl
        · rw [hfst]; simp [check_error, h1, h2, h3]
        · rw [hfst]; simp

/-- Counterexample to C9 as stated: a run whose three response bodies are all
free of classifier phrases and whose POST status would be 200 still does not
return successfully, because the translate page shows a Fetching-package
placeholder and the call raises before the POST. -/
theorem C9_counterexample :
    check_error (c9_net (fetch_req "sv" "foo")).body = none ∧
    check_error (c9_net (translate_get_req "sv" "foo")).body = none ∧
    check_error (c9_net (translate_post_req "sv" "foo" "s" "l" "")).body = none ∧
    (c9_net (translate_post_req "sv" "foo" "s" "l" "")).status = 200 ∧
    (submit_translation c9_net "sv" "foo" "s" "l" "").2 ≠ .ok := by
  refine ⟨by decide, by decide, by decide, by decide, by decide⟩

/-- C9 amended: when none of the three classified response bodies contains a
known error phrase and the translate page does not show a Fetching-package
placeholder, the call returns successfully exactly when the POST body
contains the word submitted (compared lower-cased) or the POST status is
200, 301 or 302; in every other case it raises the generic error naming the
status. -/
theorem C9_amended_success_detection (net : Req → Resp) (lang pkg s l c : String)
    (h1 : check_error (net (fetch_req lang pkg)).body = none)
    (h2 : check_error (net (translate_get_req lang pkg)).body = none)
    (h3 : strContains (net (translate_get_req lang pkg)).body "Fetching package" = false)
    (h4 : check_error (net (translate_post_req lang pkg s l c)).body = none) :
    ((submit_translation net lang pkg s l c).2 = .ok ↔
      (containsSub (toLowerList (net (translate_post_req lang pkg s l c)).body.toList)
          "submitted".toList = true ∨
       (net (translate_post_req lang pkg s l c)).status = 200 ∨
       (net (translate_post_req lang pkg s l c)).status = 301 ∨
       (net (translate_post_req lang pkg s l c)).status = 302)) ∧
    ((submit_translation net lang pkg s l c).2 = .ok ∨
     (submit_translation net lang pkg s l c).2 =
       .err .serverError ("Unexpected response after submit (HTTP " ++
         String.mk (natToChars (net (translate_post_req lang pkg s l c)).status) ++ ")")) := by
  have h1f : check_error_full (net (fetch_req lang pkg)).body = none := by
    unfold check_error at h1
    exact Option.map_eq_none'.1 h1
  have h2f : check_error_full (net (translate_get_req lang pkg)).body = none := by
    unfold check_error at h2
    exact Option.map_eq_none'.1 h2
  have h4f : check_error_full (net (translate_post_req lang pkg s l c)).body = none := by
    unfold check_error at h4
    exact Option.map_eq_none'.1 h4
  have hstep : (submit_translation net lang pkg s l c).2 =
      (if containsSub (toLowerList (net (translate_post_req lang pkg s l c)).body.toList)
          "submitted".toList = true then SubmitResult.ok
       else if ((net (translate_post_req lang pkg s l c)).status == 200 ||
           (net (translate_post_req lang pkg s l c)).status == 301 ||
           (net (translate_post_req lang pkg s l c)).status == 302) = true then SubmitResult.ok
       else SubmitResult.err .serverError ("Unexpected response after submit (HTTP " ++
         String.mk (natToChars (net (translate_post_req lang pkg s l c)).status) ++ ")")) := by
    simp only [submit_translation, h1f, h2f, h3, Bool.false_eq_true, if_false, h4f]
    split
    · rfl
    · split <;> rfl
  by_cases h5 : containsSub
      (toLowerList (net (translate_post_req lang pkg s l c)).body.toList)
      "submitted".toList = true
  · rw [hstep, if_pos h5]
    exact ⟨⟨fun _ => Or.inl h5, fun _ => rfl⟩, Or.inl rfl⟩
  · rw [hstep, if_neg h5]
    by_cases h6 : ((net (translate_post_req lang pkg s l c)).status == 200 ||
        (net (translate_post_req lang pkg s l c)).status == 301 ||
        (net (translate_post_req lang pkg s l c)).status == 302) = true
    · rw [if_pos h6]
      have h6p : (net (translate_post_req lang pkg s l c)).status = 200 ∨
          (net (translate_post_req lang pkg s l c)).status = 301 ∨
          (net (translate_post_req lang pkg s l c)).status = 302 := by
        simpa [or_assoc] using h6
      exact ⟨⟨fun _ => Or.inr h6p, fun _ => rfl⟩, Or.inl rfl⟩
    · rw [if_neg h6]
      have h6p : ¬((net (translate_post_req lang pkg s l c)).status = 200 ∨
          (net (translate_post_req lang pkg s l c)).status = 301 ∨
          (net (translate_post_req lang pkg s l c)).status = 302) := by
        intro hd
        exact h6 (by rcases hd with h | h | h <;> simp [h])
      refine ⟨⟨fun hok => absurd hok (by simp), fun hdisj => ?_⟩, Or.inr rfl⟩
      rcases hdisj with h | h
      · exact absurd h h5
      · exact absurd h h6p

/-- Witness for the amended C9: with clean bodies everywhere and a 200 POST
status the call succeeds. -/
theorem C9_witness :
    check_error (c9b_net (fetch_req "sv" "foo")).body = none ∧
    check_error (c9b_net (translate_get_req "sv" "foo")).body = none ∧
    strContains (c9b_net (translate_get_req "sv" "foo")).body "Fetching package" = false ∧
    check_error (c9b_net (translate_post_req "sv" "foo" "s" "l" "")).body = none ∧
    (submit_translation c9b_net "sv" "foo" "s" "l" "").2 = .ok := by
  refine ⟨by decide, by decide, by decide, by decide, ?_⟩
  exact ((C9_amended_success_detection c9b_net "sv" "foo" "s" "l" ""
    (by decide) (by decide) (by decide) (by decide)).1).mpr (Or.inr (Or.inl (by decide)))

/-! ## Matcher lemmas for the stats pattern -/

theorem isPre_append_self (p t : List Char) : isPre p (p ++ t) = true := by
  induction p with
  | nil => rfl
  | cons c cs ih => simp [isPre, ih]

theorem eq_append_of_isPre {p s : List Char} (h : isPre p s = true) :
    s = p ++ s.drop p.length := by
  induction p generalizing s with
  | nil => simp
  | cons c cs ih =>
    cases s with
    | nil => exact absurd h (by simp [isPre])
    | cons d ds =>
      simp only [isPre, Bool.and_eq_true, beq_iff_eq] at h
      obtain ⟨h1, h2⟩ := h
      subst h1
      show c :: ds = c :: (cs ++ List.drop cs.length ds)
      exact congrArg (c :: ·) (ih h2)

theorem findSome?_isSome_of_mem {α β : Type} {l : List α} {f : α → Option β} {a : α}
    (ha : a ∈ l) (h : (f a).isSome = true) : (l.findSome? f).isSome = true := by
  induction l with
  | nil => cases ha
  | cons x xs ih =>
    rw [List.findSome?_cons]
    cases hx : f x with
    | some b => simp
    | none =>
      rcases List.mem_cons.1 ha with h1 | h1
      · subst h1
        rw [hx] at h
        exact absurd h (by simp)
      · exact ih h1

theorem take_all_of_le_takeWhile {p : Char → Bool} {s : List Char} {k : Nat}
    (h : k ≤ (s.takeWhile p).length) : ∀ c ∈ s.take k, p c = true := by
  intro c hc
  have hs : s.take k = (s.takeWhile p).take k := by
    conv_lhs => rw [← List.takeWhile_append_dropWhile (p := p) (l := s)]
    rw [List.take_append_of_le_length h]
  rw [hs] at hc
  exact List.mem_takeWhile_imp (List.mem_of_mem_take hc)

theorem takeWhile_length_le (p : Char → Bool) (s : List Char) :
    (s.takeWhile p).length ≤ s.length := by
  have h : (s.takeWhile p).length + (s.dropWhile p).length = s.length := by
    rw [← List.length_append, List.takeWhile_append_dropWhile]
  omega

theorem matchToks_sound : ∀ (ts : List Tok) (s : List Char) (caps : List (List Char)),
    matchToks ts s = some caps → TMatch ts s caps := by
  intro ts
  induction ts with
  | nil =>
    intro s caps h
    have h2 : ([] : List (List Char)) = caps := Option.some.inj h
    subst h2
    exact TMatch.nil s
  | cons t ts ih =>
    cases t with
    | lit pat =>
      intro s caps h
      simp only [matchToks] at h
      by_cases hp : isPre pat s = true
      · rw [if_pos hp] at h
        rw [eq_append_of_isPre hp]
        exact TMatch.lit pat ts _ caps (ih _ _ h)
      · rw [if_neg hp] at h
        cases h
    | anyLazy =>
      intro s caps h
      simp only [matchToks] at h
      obtain ⟨i, hi, hfi⟩ := List.exists_of_findSome?_eq_some h
      rw [show s = s.take i ++ s.drop i from (List.take_append_drop i s).symm]
      exact TMatch.anyL (s.take i) ts (s.drop i) caps (ih _ _ hfi)
    | digits =>
      intro s caps h
      simp only [matchToks] at h
      obtain ⟨j, hj, hfj⟩ := List.exists_of_findSome?_eq_some h
      cases hm : matchToks ts (s.drop (j + 1)) with
      | none =>
        rw [hm] at hfj
        cases hfj
      | some caps2 =>
        rw [hm, Option.map_some'] at hfj
        have hcaps := Option.some.inj hfj
        subst hcaps
        have hj2 : j < (s.takeWhile Char.isDigit).length :=
          List.mem_range.1 (List.mem_reverse.1 hj)
        have hsl : j + 1 ≤ s.length :=
          le_trans hj2 (takeWhile_length_le Char.isDigit s)
        have hds : ∀ c ∈ s.take (j + 1), c.isDigit = true :=
          take_all_of_le_takeWhile (by omega)
        have hne : s.take (j + 1) ≠ [] := by
          rw [← List.length_pos, List.length_take]
          omega
        have key : TMatch (.digits :: ts) (s.take (j + 1) ++ s.drop (j + 1))
            (s.take (j + 1) :: caps2) :=
          TMatch.digs _ ts _ caps2 hne hds (ih _ _ hm)
        rw [List.take_append_drop] at key
        exact key

theorem matchToks_complete {ts : List Tok} {s : List Char} {caps : List (List Char)}
    (h : TMatch ts s caps) : (matchToks ts s).isSome = true := by
  induction h with
  | nil rest => simp [matchToks]
  | lit pat ts s caps _ ih =>
    simp only [matchToks]
    rw [if_pos (isPre_append_self pat s), List.drop_left]
    exact ih
  | anyL pre ts s caps _ ih =>
    simp only [matchToks]
    apply findSome?_isSome_of_mem (a := pre.length)
    · rw [List.mem_range, List.length_append]
      omega
    · rw [List.drop_left]
      exact ih
  | digs ds ts s caps hne hdig _ ih =>
    simp only [matchToks]
    apply findSome?_isSome_of_mem (a := ds.length - 1)
    · rw [List.mem_reverse, List.mem_range,
        List.takeWhile_append_of_pos hdig, List.length_append]
      have hpos : 0 < ds.length := List.length_pos.2 hne
      omega
    · have hpos : 0 < ds.length := List.length_pos.2 hne
      rw [show ds.length - 1 + 1 = ds.length by omega, List.drop_left]
      simpa using ih

theorem TMatch_caps {ts : List Tok} {s : List Char} {caps : List (List Char)}
    (h : TMatch ts s caps) :
    caps.length = (ts.filter (fun t => match t with | .digits => true | _ => false)).length ∧
    ∀ cap ∈ caps, cap ≠ [] ∧ ∀ c ∈ cap, c.isDigit = true := by
  induction h with
  | nil rest => exact ⟨rfl, by intro cap hc; cases hc⟩
  | lit pat ts s caps _ ih =>
    refine ⟨?_, ih.2⟩
    rw [ih.1]
    rfl
  | anyL pre ts s caps _ ih =>
    refine ⟨?_, ih.2⟩
    rw [ih.1]
    rfl
  | digs ds ts s caps hne hdig _ ih =>
    constructor
    · rw [show (List.filter (fun t => match t with | .digits => true | _ => false)
          (.digits :: ts)).length =
          (List.filter (fun t => match t with | .digits => true | _ => false) ts).length + 1
        from rfl]
      rw [List.length_cons, ih.1]
    · intro cap hc
      rcases List.mem_cons.1 hc with h1 | h1
      · subst h1
        exact ⟨hne, hdig⟩
      · exact ih.2 cap h1

/-- C8: for every stats body, either the combined pattern matches — the
matcher returns exactly three non-empty digit captures, the declarative
matching relation holds, and get_stats returns the three captured integers —
or it does not match anywhere in the body (no capture satisfies the
declarative relation) and get_stats returns all three counters as zero
without raising. -/
theorem C8_stats_zero_on_no_match (body : String) :
    (∃ a b c : List Char, matchToks searchToks body.toList = some [a, b, c] ∧
      TMatch searchToks body.toList [a, b, c] ∧
      (a ≠ [] ∧ ∀ ch ∈ a, ch.isDigit = true) ∧
      (b ≠ [] ∧ ∀ ch ∈ b, ch.isDigit = true) ∧
      (c ≠ [] ∧ ∀ ch ∈ c, ch.isDigit = true) ∧
      get_stats body = ⟨natOfDigits a, natOfDigits b, natOfDigits c⟩) ∨
    (matchToks searchToks body.toList = none ∧
      (¬ ∃ caps, TMatch searchToks body.toList caps) ∧
      get_stats body = ⟨0, 0, 0⟩) := by
  cases h : matchToks searchToks body.toList with
  | none =>
    right
    refine ⟨rfl, ?_, ?_⟩
    · rintro ⟨caps, hm⟩
      have h2 := matchToks_complete hm
      rw [h] at h2
      exact absurd h2 (by simp)
    · have h2 : matchToks searchToks body.data = none := h
      simp [get_stats, h2]
  | some caps =>
    left
    have hT := matchToks_sound _ _ _ h
    have hshape := TMatch_caps hT
    have h3 : caps.length = 3 := by
      rw [hshape.1]
      rfl
    obtain ⟨a, b, c, hcaps⟩ := List.length_eq_three.1 h3
    subst hcaps
    refine ⟨a, b, c, ?_, ?_, ?_, ?_, ?_, ?_⟩
    · rfl
    · exact hT
    · exact hshape.2 a (by simp)
    · exact hshape.2 b (by simp)
    · exact hshape.2 c (by simp)
    · have h2 : matchToks searchToks body.data = some [a, b, c] := h
      simp [get_stats, h2]

/-! ## Parser step lemmas for the exported file shapes -/

theorem isPre_append_false {p q : List Char} (r : List Char)
    (h : isPre (p.take q.length) q = false) : isPre p (q ++ r) = false := by
  induction q generalizing p with
  | nil => simp [isPre] at h
  | cons d ds ih =>
    cases p with
    | nil => simp [isPre] at h
    | cons a as =>
      simp only [List.length_cons, List.take_succ_cons, isPre] at h
      rw [List.cons_append]
      by_cases had : (a == d) = true
      · rw [had, Bool.true_and] at h
        show (a == d && isPre as (ds ++ r)) = false
        rw [had, Bool.true_and]
        exact ih h
      · have had2 : (a == d) = false := by simpa using had
        show (a == d && isPre as (ds ++ r)) = false
        rw [had2, Bool.false_and]

theorem isPre_cons_false {p : List Char} {c : Char} (rest : List Char)
    (h : isPre (p.take [c].length) [c] = false) : isPre p (c :: rest) = false :=
  isPre_append_false rest h

theorem pyStrip_cons_isEmpty {c : Char} (l : List Char) (h : c.isWhitespace = false) :
    (pyStrip (c :: l)).isEmpty = false := by
  unfold pyStrip
  rw [List.dropWhile_cons, h]
  simp only [Bool.false_eq_true, if_false]
  have h2 : (c :: l).reverse.dropWhile Char.isWhitespace ≠ [] := by
    rw [Ne, List.dropWhile_eq_nil_iff]
    intro hall
    have h3 := hall c (by simp)
    rw [h] at h3
    cases h3
  cases hde : (c :: l).reverse.dropWhile Char.isWhitespace with
  | nil => exact absurd hde h2
  | cons x xs => simp

theorem po_flush_pkg_none {st : PState} (h : st.pkg = none) : po_flush st = st := by
  unfold po_flush
  rw [h]

theorem po_flush_trivial {st : PState} (h : st.buf = [[]]) : po_flush st = st := by
  unfold po_flush
  rw [h]
  cases hp : st.pkg with
  | none => rfl
  | some pk =>
    cases hm : st.md5 with
    | none => rfl
    | some m5 => rfl

theorem step_pkg (st : PState) (p : List Char) :
    po_step st (pkgPrefix ++ p) = { st with pkg := some (pyStrip p) } := by
  unfold po_step
  rw [if_pos (isPre_append_self pkgPrefix p)]
  rw [show (pkgPrefix ++ p).drop 12 = p from List.drop_left pkgPrefix p]

theorem step_md5 (st : PState) (m : List Char) :
    po_step st (md5Prefix ++ m) = { st with md5 := some (pyStrip m) } := by
  unfold po_step
  have h1 : isPre pkgPrefix (md5Prefix ++ m) = false := isPre_append_false m (by decide)
  rw [h1]
  simp only [Bool.false_eq_true, if_false]
  rw [if_pos (isPre_append_self md5Prefix m)]
  rw [show (md5Prefix ++ m).drop 8 = m from List.drop_left md5Prefix m]

theorem step_ctxLong (st : PState) (rest : List Char) :
    po_step st (ctxLongPrefix ++ rest) =
      { st with ctx := (splitOnChar '"' (ctxLongPrefix ++ rest)).get? 1 } := by
  unfold po_step
  have h1 : isPre pkgPrefix (ctxLongPrefix ++ rest) = false := isPre_append_false rest (by decide)
  have h2 : isPre md5Prefix (ctxLongPrefix ++ rest) = false := isPre_append_false rest (by decide)
  rw [h1, h2]
  simp only [Bool.false_eq_true, if_false]
  rw [if_pos (isPre_append_self ctxLongPrefix rest)]

theorem step_msgid (st : PState) (rest : List Char) (h : st.inStr = false) :
    po_step st (msgidPrefix ++ rest) = { st with inStr := false } := by
  unfold po_step
  have h1 : isPre pkgPrefix (msgidPrefix ++ rest) = false := isPre_append_false rest (by decide)
  have h2 : isPre md5Prefix (msgidPrefix ++ rest) = false := isPre_append_false rest (by decide)
  have h3 : isPre ctxLongPrefix (msgidPrefix ++ rest) = false := isPre_append_false rest (by decide)
  have h4 : isPre ctxPrefix (msgidPrefix ++ rest) = false := isPre_append_false rest (by decide)
  rw [h1, h2, h3, h4]
  simp only [Bool.false_eq_true, if_false]
  rw [if_pos (isPre_append_self msgidPrefix rest), h]
  simp only [Bool.false_eq_true, if_false]

theorem step_msgstr_empty (st : PState) :
    po_step st (msgstrPrefix ++ ['"', '"']) = { st with inStr := true, buf := [[]] } := by
  unfold po_step
  have h1 : isPre pkgPrefix (msgstrPrefix ++ ['"', '"']) = false := by decide
  have h2 : isPre md5Prefix (msgstrPrefix ++ ['"', '"']) = false := by decide
  have h3 : isPre ctxLongPrefix (msgstrPrefix ++ ['"', '"']) = false := by decide
  have h4 : isPre ctxPrefix (msgstrPrefix ++ ['"', '"']) = false := by decide
  have h5 : isPre msgidPrefix (msgstrPrefix ++ ['"', '"']) = false := by decide
  rw [h1, h2, h3, h4, h5]
  simp only [Bool.false_eq_true, if_false]
  rw [if_pos (isPre_append_self msgstrPrefix ['"', '"'])]
  rfl

theorem step_blank (st : PState) (h : st.inStr = true) :
    po_step st [] =
      { st with out := (po_flush st).out, buf := [], inStr := false, ctx := none } := by
  unfold po_step
  rw [show isPre pkgPrefix [] = false from by decide]
  rw [show isPre md5Prefix [] = false from by decide]
  rw [show isPre ctxLongPrefix [] = false from by decide]
  rw [show isPre ctxPrefix [] = false from by decide]
  rw [show isPre msgidPrefix [] = false from by decide]
  rw [show isPre msgstrPrefix [] = false from by decide]
  rw [show isPre ['"'] ([] : List Char) = false from by decide]
  rw [h]
  simp only [Bool.false_eq_true, if_false, Bool.true_and, Bool.and_false]
  rw [show (pyStrip []).isEmpty = true from by decide]
  simp only [if_true]

theorem step_blank_out (st : PState) (h : st.inStr = false) :
    po_step st [] = st := by
  unfold po_step
  rw [show isPre pkgPrefix [] = false from by decide]
  rw [show isPre md5Prefix [] = false from by decide]
  rw [show isPre ctxLongPrefix [] = false from by decide]
  rw [show isPre ctxPrefix [] = false from by decide]
  rw [show isPre msgidPrefix [] = false from by decide]
  rw [show isPre msgstrPrefix [] = false from by decide]
  rw [show isPre ['"'] ([] : List Char) = false from by decide]
  rw [h]
  simp only [Bool.false_eq_true, if_false, Bool.false_and, Bool.and_false]
  rw [show (pyStrip []).isEmpty = true from by decide]
  simp only [if_true, h]

theorem step_quoted (st : PState) (rest : List Char) (h : st.inStr = true) :
    po_step st ('"' :: rest) =
      { st with buf := st.buf ++ [stripQuotes (pyStrip ('"' :: rest))] } := by
  unfold po_step
  rw [isPre_cons_false rest (p := pkgPrefix) (by decide)]
  rw [isPre_cons_false rest (p := md5Prefix) (by decide)]
  rw [isPre_cons_false rest (p := ctxLongPrefix) (by decide)]
  rw [isPre_cons_false rest (p := ctxPrefix) (by decide)]
  rw [isPre_cons_false rest (p := msgidPrefix) (by decide)]
  rw [isPre_cons_false rest (p := msgstrPrefix) (by decide)]
  rw [h]
  rw [show isPre ['"'] ('"' :: rest) = true from by simp [isPre]]
  simp only [Bool.false_eq_true, if_false, Bool.true_and, if_true]

theorem step_inert (st : PState) (line : List Char)
    (h1 : isPre pkgPrefix line = false) (h2 : isPre md5Prefix line = false)
    (h3 : isPre ctxLongPrefix line = false) (h4 : isPre ctxPrefix line = false)
    (h5 : isPre msgidPrefix line = false) (h6 : isPre msgstrPrefix line = false)
    (h7 : (st.inStr && isPre ['"'] line) = false)
    (h8 : (pyStrip line).isEmpty = false) :
    po_step st line = st := by
  unfold po_step
  rw [h1, h2, h3, h4, h5, h6, h7, h8]
  simp only [Bool.false_eq_true, if_false]

theorem pstate_set_inStr_false {st : PState} (h : st.inStr = false) :
    { st with inStr := false } = st := by
  cases st with
  | mk p m c i b o =>
    change i = false at h
    rw [h]

theorem step_comment (st : PState) (rest : List Char) :
    po_step st ('#' :: ' ' :: rest) = st := by
  refine step_inert st _ (isPre_append_false (q := ['#', ' ']) rest (by decide))
    (isPre_append_false (q := ['#', ' ']) rest (by decide))
    (isPre_append_false (q := ['#', ' ']) rest (by decide))
    (isPre_append_false (q := ['#', ' ']) rest (by decide))
    (isPre_append_false (q := ['#', ' ']) rest (by decide))
    (isPre_append_false (q := ['#', ' ']) rest (by decide))
    ?_ (pyStrip_cons_isEmpty (' ' :: rest) (by decide))
  rw [isPre_cons_false (p := ['"']) (' ' :: rest) (by decide), Bool.and_false]

theorem step_hash_only (st : PState) : po_step st ['#'] = st := by
  refine step_inert st _ (by decide) (by decide) (by decide) (by decide) (by decide)
    (by decide) ?_ (by decide)
  rw [show isPre ['"'] ['#'] = false from by decide, Bool.and_false]

theorem step_longdesc (st : PState) (p : List Char) :
    po_step st ("#. Long description for ".toList ++ p) = st := by
  refine step_inert st _ (isPre_append_false p (by decide)) (isPre_append_false p (by decide))
    (isPre_append_false p (by decide)) (isPre_append_false p (by decide))
    (isPre_append_false p (by decide)) (isPre_append_false p (by decide))
    ?_ (pyStrip_cons_isEmpty (". Long description for ".toList ++ p) (by decide))
  rw [isPre_append_false p (by decide), Bool.and_false]

theorem step_quoted_inert (st : PState) (rest : List Char) (h : st.inStr = false) :
    po_step st ('"' :: rest) = st := by
  refine step_inert st _ (isPre_cons_false rest (by decide)) (isPre_cons_false rest (by decide))
    (isPre_cons_false rest (by decide)) (isPre_cons_false rest (by decide))
    (isPre_cons_false rest (by decide)) (isPre_cons_false rest (by decide))
    ?_ (pyStrip_cons_isEmpty rest (by decide))
  rw [h, Bool.false_and]

theorem run_quoteParts (ls : List (List Char)) (st : PState) (h : st.inStr = false) :
    List.foldl po_step st (quoteParts ls) = st := by
  induction ls generalizing st with
  | nil => rfl
  | cons l rest ih =>
    cases rest with
    | nil =>
      show List.foldl po_step st [('"' :: (po_escape l ++ ['"']))] = st
      rw [List.foldl_cons, List.foldl_nil, step_quoted_inert st _ h]
    | cons l2 rest2 =>
      show List.foldl po_step
        (po_step st ('"' :: (po_escape l ++ ['\\', 'n', '"']))) (quoteParts (l2 :: rest2)) = st
      rw [step_quoted_inert st _ h]
      exact ih st h

theorem run_msgid_lines (s : List Char) (st : PState) (h : st.inStr = false) :
    List.foldl po_step st (msgidLines (po_escape_multiline_lines s)) = st := by
  unfold po_escape_multiline_lines
  cases hsp : splitOnChar '\n' s with
  | nil =>
    show List.foldl po_step st [msgidPrefix ++ ['"', '"']] = st
    rw [List.foldl_cons, List.foldl_nil, step_msgid st _ h]
    exact pstate_set_inStr_false h
  | cons a rest =>
    cases rest with
    | nil =>
      show List.foldl po_step st [msgidPrefix ++ ('"' :: (po_escape a ++ ['"']))] = st
      rw [List.foldl_cons, List.foldl_nil, step_msgid st _ h]
      exact pstate_set_inStr_false h
    | cons b rest2 =>
      show List.foldl po_step st
        ((msgidPrefix ++ ['"', '"']) :: quoteParts (a :: b :: rest2)) = st
      rw [List.foldl_cons, step_msgid st _ h]
      rw [run_quoteParts _ _ (show ({ st with inStr := false } : PState).inStr = false from rfl)]
      exact pstate_set_inStr_false h

theorem run_header (lang : List Char) (n : Nat) :
    List.foldl po_step po_init (headerLines lang n) = po_init := by
  have equoted : ∀ (b : List (List Char)) (rest : List Char),
      po_step (⟨none, none, none, true, b, []⟩ : PState) ('"' :: rest) =
        (⟨none, none, none, true, b ++ [stripQuotes (pyStrip ('"' :: rest))], []⟩ : PState) := by
    intro b rest
    rw [step_quoted _ _ rfl]
  have eblank : ∀ (b : List (List Char)),
      po_step (⟨none, none, none, true, b, []⟩ : PState) [] = po_init := by
    intro b
    rw [step_blank _ rfl, po_flush_pkg_none rfl]
    rfl
  unfold headerLines
  simp only [List.foldl_cons, List.foldl_nil]
  rw [step_comment po_init "DDTP translations export".toList]
  rw [step_comment po_init ("Language: ".toList ++ lang)]
  rw [step_comment po_init ("Packages: ".toList ++ natToChars n)]
  rw [step_hash_only po_init]
  rw [step_msgid po_init _ rfl]
  rw [show ({ po_init with inStr := false } : PState) = po_init from rfl]
  rw [step_msgstr_empty po_init]
  rw [show ({ po_init with inStr := true, buf := [[]] } : PState) =
    (⟨none, none, none, true, [[]], []⟩ : PState) from rfl]
  rw [equoted, equoted, equoted, eblank]

theorem run_block (r : PkgRec) (st : PState) (h : st.inStr = false) :
    List.foldl po_step st (blockLines r) =
      { st with pkg := some (pyStrip r.package), md5 := some (pyStrip r.md5),
                ctx := none, inStr := false, buf := [] } := by
  have e1 : po_step st (pkgPrefix ++ r.package) =
      (⟨some (pyStrip r.package), st.md5, st.ctx, st.inStr, st.buf, st.out⟩ : PState) :=
    step_pkg st r.package
  have e2 : po_step
      (⟨some (pyStrip r.package), st.md5, st.ctx, st.inStr, st.buf, st.out⟩ : PState)
      (md5Prefix ++ r.md5) =
      (⟨some (pyStrip r.package), some (pyStrip r.md5), st.ctx, st.inStr, st.buf,
        st.out⟩ : PState) :=
    step_md5 _ r.md5
  have e3 : po_step
      (⟨some (pyStrip r.package), some (pyStrip r.md5), st.ctx, st.inStr, st.buf,
        st.out⟩ : PState)
      (msgidPrefix ++ ('"' :: (po_escape r.short ++ ['"']))) =
      (⟨some (pyStrip r.package), some (pyStrip r.md5), st.ctx, false, st.buf,
        st.out⟩ : PState) :=
    step_msgid _ _ h
  have e4 : po_step
      (⟨some (pyStrip r.package), some (pyStrip r.md5), st.ctx, false, st.buf,
        st.out⟩ : PState)
      (msgstrPrefix ++ ['"', '"']) =
      (⟨some (pyStrip r.package), some (pyStrip r.md5), st.ctx, true, [[]],
        st.out⟩ : PState) :=
    step_msgstr_empty _
  have e5 : po_step
      (⟨some (pyStrip r.package), some (pyStrip r.md5), st.ctx, true, [[]],
        st.out⟩ : PState) [] =
      (⟨some (pyStrip r.package), some (pyStrip r.md5), none, false, [],
        st.out⟩ : PState) := by
    rw [step_blank _ rfl, po_flush_trivial rfl]
  unfold blockLines
  by_cases hlong : r.long.isEmpty = true
  · rw [hlong]
    simp only [if_true, List.append_nil, List.foldl_cons, List.foldl_nil]
    rw [e1, e2, e3, e4, e5]
  · have hlong2 : r.long.isEmpty = false := by simpa using hlong
    rw [hlong2]
    simp only [Bool.false_eq_true, if_false, List.cons_append, List.nil_append,
      List.foldl_cons, List.foldl_append, List.foldl_nil]
    rw [e1, e2, e3, e4, e5]
    rw [step_longdesc _ r.package]
    rw [step_ctxLong _ (r.package ++ ['"'])]
    rw [show ({ (⟨some (pyStrip r.package), some (pyStrip r.md5), none, false, [],
        st.out⟩ : PState) with
        ctx := (splitOnChar '"' (ctxLongPrefix ++ (r.package ++ ['"']))).get? 1 } : PState) =
      (⟨some (pyStrip r.package), some (pyStrip r.md5),
        (splitOnChar '"' (ctxLongPrefix ++ (r.package ++ ['"']))).get? 1, false, [],
        st.out⟩ : PState) from rfl]
    rw [run_msgid_lines r.long _ rfl]
    rw [step_msgstr_empty _]
    rw [show ({ (⟨some (pyStrip r.package), some (pyStrip r.md5),
        (splitOnChar '"' (ctxLongPrefix ++ (r.package ++ ['"']))).get? 1, false, [],
        st.out⟩ : PState) with inStr := true, buf := [[]] } : PState) =
      (⟨some (pyStrip r.package), some (pyStrip r.md5),
        (splitOnChar '"' (ctxLongPrefix ++ (r.package ++ ['"']))).get? 1, true, [[]],
        st.out⟩ : PState) from rfl]
    rw [step_blank _ rfl, po_flush_trivial rfl]

theorem no_nl_append {a b : List Char} (ha : '\n' ∉ a) (hb : '\n' ∉ b) :
    '\n' ∉ a ++ b := by
  intro h
  rcases List.mem_append.1 h with h | h
  · exact ha h
  · exact hb h

theorem no_nl_cons {c : Char} {l : List Char} (hc : ¬ ('\n' = c)) (hl : '\n' ∉ l) :
    '\n' ∉ c :: l := by
  intro h
  rcases List.mem_cons.1 h with h | h
  · exact hc h
  · exact hl h

theorem not_mem_replaceChar_self {c : Char} {r : List Char} (h : c ∉ r) :
    ∀ (l : List Char), c ∉ replaceChar c r l := by
  intro l
  induction l with
  | nil => simp [replaceChar]
  | cons x xs ih =>
    unfold replaceChar
    by_cases hx : (x == c) = true
    · rw [hx]
      simp only [if_true]
      intro hmem
      rcases List.mem_append.1 hmem with h1 | h1
      · exact h h1
      · exact ih h1
    · have hx2 : (x == c) = false := by simpa using hx
      rw [hx2]
      simp only [Bool.false_eq_true, if_false]
      intro hmem
      rcases List.mem_cons.1 hmem with h1 | h1
      · rw [h1] at hx2
        simp at hx2
      · exact ih h1

theorem newline_not_mem_po_escape (s : List Char) : '\n' ∉ po_escape s :=
  not_mem_replaceChar_self (by decide) _

theorem natToCharsGo_digits : ∀ (fuel n : Nat) (acc : List Char),
    ∀ ch ∈ natToCharsGo fuel n acc, ch ∈ acc ∨ ∃ k, k < 10 ∧ ch = digitChar k := by
  intro fuel
  induction fuel with
  | zero => intro n acc ch hch; exact Or.inl hch
  | succ f ih =>
    intro n acc ch hch
    unfold natToCharsGo at hch
    by_cases hn : n < 10
    · rw [if_pos hn] at hch
      rcases List.mem_cons.1 hch with h1 | h1
      · exact Or.inr ⟨n, hn, h1⟩
      · exact Or.inl h1
    · rw [if_neg hn] at hch
      rcases ih (n / 10) _ ch hch with h1 | h1
      · rcases List.mem_cons.1 h1 with h2 | h2
        · exact Or.inr ⟨n % 10, Nat.mod_lt _ (by omega), h2⟩
        · exact Or.inl h2
      · exact Or.inr h1

theorem newline_not_mem_natToChars (n : Nat) : '\n' ∉ natToChars n := by
  intro hmem
  rcases natToCharsGo_digits (n + 1) n [] _ hmem with h | ⟨k, hk, he⟩
  · cases h
  · interval_cases k <;> exact absurd he (by decide)

theorem quoteParts_no_newline : ∀ (ls : List (List Char)),
    ∀ piece ∈ quoteParts ls, '\n' ∉ piece := by
  intro ls
  induction ls with
  | nil => intro piece h; cases h
  | cons l rest ih =>
    cases rest with
    | nil =>
      intro piece h
      rcases List.mem_cons.1 h with h1 | h1
      · rw [h1]
        exact no_nl_cons (by decide) (no_nl_append (newline_not_mem_po_escape l) (by decide))
      · cases h1
    | cons l2 rest2 =>
      intro piece h
      rcases List.mem_cons.1 h with h1 | h1
      · rw [h1]
        exact no_nl_cons (by decide) (no_nl_append (newline_not_mem_po_escape l) (by decide))
      · exact ih piece h1

theorem po_escape_multiline_no_newline (s : List Char) :
    ∀ piece ∈ po_escape_multiline_lines s, '\n' ∉ piece := by
  unfold po_escape_multiline_lines
  cases hsp : splitOnChar '\n' s with
  | nil =>
    intro piece h
    rcases List.mem_cons.1 h with h1 | h1
    · rw [h1]; decide
    · exact quoteParts_no_newline [] piece h1
  | cons a rest =>
    cases rest with
    | nil =>
      intro piece h
      rcases List.mem_cons.1 h with h1 | h1
      · rw [h1]
        exact no_nl_cons (by decide) (no_nl_append (newline_not_mem_po_escape a) (by decide))
      · cases h1
    | cons b rest2 =>
      intro piece h
      rcases List.mem_cons.1 h with h1 | h1
      · rw [h1]; decide
      · exact quoteParts_no_newline (a :: b :: rest2) piece h1

theorem msgidLines_no_newline {ps : List (List Char)}
    (hp : ∀ piece ∈ ps, '\n' ∉ piece) : ∀ ln ∈ msgidLines ps, '\n' ∉ ln := by
  cases ps with
  | nil =>
    intro ln h
    rcases List.mem_cons.1 h with h1 | h1
    · rw [h1]; decide
    · cases h1
  | cons p rest =>
    intro ln h
    rcases List.mem_cons.1 h with h1 | h1
    · rw [h1]
      exact no_nl_append (by decide) (hp p (by simp))
    · exact hp ln (List.mem_cons_of_mem _ h1)

theorem blockLines_no_newline (r : PkgRec) (h1 : '\n' ∉ r.package) (h2 : '\n' ∉ r.md5) :
    ∀ ln ∈ blockLines r, '\n' ∉ ln := by
  intro ln hln
  unfold blockLines at hln
  rcases List.mem_append.1 hln with h | h
  · simp only [List.mem_cons, List.not_mem_nil, or_false] at h
    rcases h with h | h | h | h | h
    · rw [h]; exact no_nl_append (by decide) h1
    · rw [h]; exact no_nl_append (by decide) h2
    · rw [h]
      exact no_nl_append (by decide)
        (no_nl_cons (by decide) (no_nl_append (newline_not_mem_po_escape r.short) (by decide)))
    · rw [h]; decide
    · rw [h]; decide
  · by_cases hlong : r.long.isEmpty = true
    · rw [hlong] at h
      simp at h
    · have hlong2 : r.long.isEmpty = false := by simpa using hlong
      rw [hlong2] at h
      simp only [Bool.false_eq_true, if_false, List.cons_append, List.nil_append] at h
      rcases List.mem_cons.1 h with hA | h
      · rw [hA]; exact no_nl_append (by decide) h1
      rcases List.mem_cons.1 h with hA | h
      · rw [hA]
        exact no_nl_append (by decide) (no_nl_append h1 (by decide))
      rcases List.mem_append.1 h with hA | h
      · exact msgidLines_no_newline (po_escape_multiline_no_newline r.long) ln hA
      · simp only [List.mem_cons, List.not_mem_nil, or_false] at h
        rcases h with hA | hA
        · rw [hA]; decide
        · rw [hA]; decide

theorem headerLines_no_newline (lang : List Char) (n : Nat) (hl : '\n' ∉ lang) :
    ∀ ln ∈ headerLines lang n, '\n' ∉ ln := by
  intro ln h
  unfold headerLines at h
  simp only [List.mem_cons, List.not_mem_nil, or_false] at h
  rcases h with h | h | h | h | h | h | h | h | h | h
  · rw [h]; decide
  · rw [h]
    exact no_nl_cons (by decide) (no_nl_cons (by decide) (no_nl_append (by decide) hl))
  · rw [h]
    exact no_nl_cons (by decide) (no_nl_cons (by decide)
      (no_nl_append (by decide) (newline_not_mem_natToChars n)))
  · rw [h]; decide
  · rw [h]; decide
  · rw [h]; decide
  · rw [h]
    exact no_nl_cons (by decide)
      (no_nl_append (by decide) (no_nl_append hl (by decide)))
  · rw [h]; decide
  · rw [h]; decide
  · rw [h]; decide

theorem exportLines_no_newline (lang : List Char) (pkgs : List PkgRec)
    (hl : '\n' ∉ lang)
    (hp : ∀ r ∈ pkgs, '\n' ∉ r.package ∧ '\n' ∉ r.md5) :
    ∀ ln ∈ exportLines lang pkgs, '\n' ∉ ln := by
  intro ln h
  unfold exportLines at h
  rcases List.mem_append.1 h with h | h
  · exact headerLines_no_newline lang pkgs.length hl ln h
  · rw [List.mem_flatten] at h
    obtain ⟨bl, hbl, hlnbl⟩ := h
    rw [List.mem_map] at hbl
    obtain ⟨r, hr, hble⟩ := hbl
    subst hble
    exact blockLines_no_newline r (hp r hr).1 (hp r hr).2 ln hlnbl

theorem splitOnCharGo_cons (sep : Char) (acc : List Char) (c : Char) (rest : List Char) :
    splitOnCharGo sep acc (c :: rest) =
      if c == sep then acc.reverse :: splitOnCharGo sep [] rest
      else splitOnCharGo sep (c :: acc) rest := rfl

theorem splitGo_all_no_sep {sep : Char} : ∀ (l acc : List Char), (∀ ch ∈ l, ¬ (ch = sep)) →
    splitOnCharGo sep acc l = [acc.reverse ++ l] := by
  intro l
  induction l with
  | nil => intro acc h; simp [splitOnCharGo]
  | cons c rest ih =>
    intro acc h
    unfold splitOnCharGo
    have hc : (c == sep) = false := by
      have h2 := h c (by simp)
      simpa using h2
    rw [hc]
    simp only [Bool.false_eq_true, if_false]
    rw [ih (c :: acc) (fun ch hch => h ch (List.mem_cons_of_mem c hch))]
    simp

theorem splitGo_sep_line {sep : Char} : ∀ (l acc t : List Char),
    (∀ ch ∈ l, ¬ (ch = sep)) →
    splitOnCharGo sep acc (l ++ sep :: t) = (acc.reverse ++ l) :: splitOnCharGo sep [] t := by
  intro l
  induction l with
  | nil =>
    intro acc t h
    show splitOnCharGo sep acc (sep :: t) = _
    rw [splitOnCharGo_cons]
    rw [show (sep == sep) = true from by simp]
    simp
  | cons c rest ih =>
    intro acc t h
    show splitOnCharGo sep acc (c :: (rest ++ sep :: t)) = _
    rw [splitOnCharGo_cons]
    have hc : (c == sep) = false := by
      have h2 := h c (by simp)
      simpa using h2
    rw [hc]
    simp only [Bool.false_eq_true, if_false]
    rw [ih (c :: acc) t (fun ch hch => h ch (List.mem_cons_of_mem c hch))]
    simp

theorem splitOnChar_intercalate : ∀ (L : List (List Char)), L ≠ [] →
    (∀ ln ∈ L, '\n' ∉ ln) →
    splitOnCharGo '\n' [] (intercalateNl L ++ ['\n']) = L ++ [[]] := by
  intro L
  induction L with
  | nil => intro h; exact absurd rfl h
  | cons l rest ih =>
    intro _ hno
    cases rest with
    | nil =>
      show splitOnCharGo '\n' [] (l ++ '\n' :: []) = [l, []]
      have hl := hno l (by simp)
      rw [splitGo_sep_line l [] [] (fun ch hch heq => hl (by rwa [heq] at hch))]
      simp [splitOnCharGo]
    | cons l2 rest2 =>
      show splitOnCharGo '\n' [] ((l ++ '\n' :: intercalateNl (l2 :: rest2)) ++ ['\n']) = _
      rw [List.append_assoc, List.cons_append]
      have hl := hno l (by simp)
      rw [splitGo_sep_line l [] _ (fun ch hch heq => hl (by rwa [heq] at hch))]
      rw [ih (by simp) (fun ln hln => hno ln (List.mem_cons_of_mem _ hln))]
      simp

theorem readLines_joinFile (L : List (List Char)) (hne : L ≠ [])
    (h : ∀ ln ∈ L, '\n' ∉ ln) :
    readLines (intercalateNl L ++ ['\n']) = L := by
  unfold readLines splitOnChar
  rw [splitOnChar_intercalate L hne h]
  simp [List.dropLast_concat]

theorem exportLines_ne_nil (lang : List Char) (pkgs : List PkgRec) :
    exportLines lang pkgs ≠ [] := by
  unfold exportLines headerLines
  simp

theorem run_blocks_out : ∀ (ps : List PkgRec) (st : PState), st.inStr = false →
    (List.foldl po_step st ((ps.map blockLines).flatten)).out = st.out ∧
    (List.foldl po_step st ((ps.map blockLines).flatten)).inStr = false := by
  intro ps
  induction ps with
  | nil => intro st h; exact ⟨rfl, h⟩
  | cons r rest ih =>
    intro st h
    simp only [List.map_cons, List.flatten_cons, List.foldl_append]
    rw [run_block r st h]
    exact ih _ rfl

/-- Counterexample to C6 as stated: a queue entry with non-empty translated
short text, once exported and re-imported, is not reproduced — the re-import
of the exported file yields no tuples at all, because the export writes an
empty translated-text field for every block. -/
theorem C6_counterexample :
    ("Great tool".toList : List Char) ≠ [] ∧
    parse_imported_po (export_po_file "sv".toList c6_pkgs) = [] := by
  refine ⟨by decide, by decide⟩

/-- C6 amended: for every package list (package names, hashes and language
free of embedded newlines, which the line-oriented format cannot carry),
exporting and re-importing the exported file reproduces no item at all:
every block of the exported file carries an empty translated-text field, and
the import keeps only blocks with non-empty translated text, so items with
empty and non-empty translated text alike are dropped. -/
theorem C6_roundtrip_imports_nothing (lang : List Char) (pkgs : List PkgRec)
    (hl : '\n' ∉ lang)
    (hp : ∀ r ∈ pkgs, '\n' ∉ r.package ∧ '\n' ∉ r.md5) :
    parse_imported_po (export_po_file lang pkgs) = [] := by
  unfold parse_imported_po export_po_file
  rw [readLines_joinFile _ (exportLines_ne_nil lang pkgs)
    (exportLines_no_newline lang pkgs hl hp)]
  unfold parse_po_lines exportLines
  rw [List.foldl_append, run_header]
  obtain ⟨ho, hi⟩ := run_blocks_out pkgs po_init rfl
  simp [hi, ho]
  simp [po_init]

/-- Witness for the amended C6: the concrete two-package export re-imports
as the empty list. -/
theorem C6_witness :
    ('\n' ∉ "sv".toList) ∧
    (∀ r ∈ c6_pkgs, '\n' ∉ r.package ∧ '\n' ∉ r.md5) ∧
    parse_imported_po (export_po_file "sv".toList c6_pkgs) = [] :=
  ⟨by decide, by decide,
   C6_roundtrip_imports_nothing "sv".toList c6_pkgs (by decide) (by decide)⟩

end DdtpTranslate
